import Mathlib

/-!
Shallow embedding of the Todd-Coxeter coset-enumeration module `toddcox.py`
(repository allemangD/toddcoxeter), together with theorems checking the
natural-language specification of the module against this embedding.

Python lists of optional coset indices are modelled as `List (Option Nat)`;
out-of-range reads/writes use `List.getD` / `List.set` (the bounds invariant
proved below shows all accesses made by the algorithm are in range, where the
Python code would otherwise raise `IndexError`).  The unbounded outer
enumeration loop of `solve` is a genuine semi-decision procedure, so it is
given explicit fuel; running out of fuel is reported as a distinguished
error value.  The two inner while loops of `Row.learn` and the
learn-until-no-progress loop of `solve` always terminate, and are given
fuel amounts proved (in comments at their definitions) to always suffice,
so on every input they compute exactly what the Python loops compute.
-/

set_option maxRecDepth 20000

namespace ToddCox

/-- One in-progress scan of one relator word, anchored at one coset
(class `Row` of `toddcox.py`): a half-open window `[left, right)` into
`rel`, the coset `left_coset` reached by the already-scanned prefix and the
coset `right_target` from which the already-scanned suffix reaches the
anchor. -/
structure Row where
  rel : List Nat
  left : Nat
  right : Nat
  left_coset : Nat
  right_target : Nat
deriving Repr, DecidableEq

/-- `Row.__init__(rel, i)`: fresh window over the whole relator, both
anchors at coset `i`. -/
def Row.start (rel : List Nat) (i : Nat) : Row :=
  ⟨rel, 0, rel.length, i, i⟩

/-- The growable coset table (class `Cosets` of `toddcox.py`): parallel
forward (`cosets`) and reverse (`rcosets`) arrays of `Option` coset
indices, one row per coset, one column per generator. -/
structure Cosets where
  names : List Char
  n_gens : Nat
  cosets : List (List (Option Nat))
  rcosets : List (List (Option Nat))
deriving Repr, DecidableEq

/-- `Cosets.__init__(n_gens, names)`: empty arrays followed by one
`add_row`, so one all-undefined row in each array. -/
def Cosets.start (n : Nat) (names : List Char) : Cosets :=
  ⟨names, n, [List.replicate n none], [List.replicate n none]⟩

/-- `Cosets.get(coset, gen)`: forward lookup `self.cosets[coset][gen]`. -/
def Cosets.get (t : Cosets) (c g : Nat) : Option Nat :=
  (t.cosets.getD c []).getD g none

/-- `Cosets.rget(gen, target)`: reverse lookup `self.rcosets[target][gen]`. -/
def Cosets.rget (t : Cosets) (g target : Nat) : Option Nat :=
  (t.rcosets.getD target []).getD g none

/-- Write one cell of a 2-D list-of-lists table (`m[i][j] = v`), by one
traversal; out-of-range positions leave the table unchanged (the lemma
`upd2_eq_set` below restates this as `set`/`getD`). -/
def upd2 : List (List (Option Nat)) → Nat → Nat → Option Nat → List (List (Option Nat))
  | [], _, _, _ => []
  | row :: rest, 0, j, v => row.set j v :: rest
  | row :: rest, i + 1, j, v => row :: upd2 rest i j v

/-- `Cosets.set(coset, gen, target)`: unconditional joint write
`cosets[coset][gen] = target` and `rcosets[target][gen] = coset`. -/
def Cosets.set (t : Cosets) (c g target : Nat) : Cosets :=
  { t with cosets := upd2 t.cosets c g (some target),
           rcosets := upd2 t.rcosets target g (some c) }

/-- `Cosets.add_row()`: append an all-undefined row to both arrays. -/
def Cosets.add_row (t : Cosets) : Cosets :=
  { t with cosets := t.cosets ++ [List.replicate t.n_gens none],
           rcosets := t.rcosets ++ [List.replicate t.n_gens none] }

/-- First undefined column index of one row, if any. -/
def findNoneRow : List (Option Nat) → Option Nat
  | [] => none
  | none :: _ => some 0
  | some _ :: xs => (findNoneRow xs).map (· + 1)

/-- First undefined `(row, column)` position in row-major order, if any
(the scan order of `Cosets.add_coset`). -/
def findNone : List (List (Option Nat)) → Option (Nat × Nat)
  | [] => none
  | row :: rest =>
    match findNoneRow row with
    | some j => some (0, j)
    | none => (findNone rest).map (fun p => (p.1 + 1, p.2))

/-- `Cosets.add_coset()`: find the first undefined `(coset, gen)` entry in
row-major order; if none exists return `none` (the table is complete),
otherwise allocate a fresh coset index (`target = len(self.cosets)` taken
before `add_row`), append a row, write the edge, and return the new
table. -/
def Cosets.add_coset (t : Cosets) : Option Cosets :=
  match findNone t.cosets with
  | none => none
  | some (i, g) =>
    let target := t.cosets.length
    some (t.add_row.set i g target)

/-- The left-advancing while loop of `Row.learn` (`while self.left + 1 !=
self.right: ...` over forward lookups).  Each iteration increments `left`
while `left + 1 < right` holds, so `right - left` bounds the iteration
count and the fuel given in `advanceLeft` always suffices.  (The Python
loop tests `left + 1 != right`; the two agree on every state with
`left ≤ right`, which holds in every state the algorithm reaches, and on
`left > right` the Python code would fault reading `rel[left]`.) -/
def advLeftAux (t : Cosets) : Nat → Row → Row
  | 0, r => r
  | fuel + 1, r =>
    if r.left + 1 < r.right then
      match t.get r.left_coset (r.rel.getD r.left 0) with
      | some d => advLeftAux t fuel { r with left := r.left + 1, left_coset := d }
      | none => r
    else r

/-- Step 2 of `Row.learn`: advance the left end of the window through
defined forward lookups. -/
def advanceLeft (r : Row) (t : Cosets) : Row :=
  advLeftAux t (r.right - r.left) r

/-- The right-advancing while loop of `Row.learn` (reverse lookups
`rget(self.right_gen, self.right_target)`), fueled like `advLeftAux`. -/
def advRightAux (t : Cosets) : Nat → Row → Row
  | 0, r => r
  | fuel + 1, r =>
    if r.left + 1 < r.right then
      match t.rget (r.rel.getD (r.right - 1) 0) r.right_target with
      | some c => advRightAux t fuel { r with right := r.right - 1, right_target := c }
      | none => r
    else r

/-- Step 3 of `Row.learn`: advance the right end of the window through
defined reverse lookups. -/
def advanceRight (r : Row) (t : Cosets) : Row :=
  advRightAux t (r.right - r.left) r

/-- `Row.learn(cosets)`: returns the updated row (Python mutates the row
in place), the updated table, and whether information was learned.  An
already-single-step window returns immediately with no write; otherwise
both ends advance and, if the window has narrowed to a single step, that
forced entry is written with `set` and the row reports learned. -/
def Row.learn (r : Row) (t : Cosets) : Row × Cosets × Bool :=
  if r.left + 1 = r.right then (r, t, false)
  else
    let m := advanceRight (advanceLeft r t) t
    if m.left + 1 = m.right then
      (m, t.set m.left_coset (m.rel.getD m.left 0) m.right_target, true)
    else (m, t, false)

/-- One pass of `for i in reversed(range(len(rows))): if rows[i].learn(...):
del rows[i]` from `solve`: rows are processed from the last index to the
first (so the table state threads tail-first), learned rows are dropped,
and the flag records whether any row learned. -/
def learnPass : List Row → Cosets → List Row × Cosets × Bool
  | [], t => ([], t, false)
  | r :: rs, t =>
    let (rs', t', l) := learnPass rs t
    let (r', t'', b) := r.learn t'
    if b then (rs', t'', true) else (r' :: rs', t'', l)

/-- The `while True: ... if not learned: break` loop of `solve`, fueled.
Every pass that reports learned drops at least one row, so at most
`rows.length` learning passes happen before the final non-learning pass;
the fuel given in `innerLoop` therefore always suffices. -/
def innerAux : Nat → List Row → Cosets → List Row × Cosets
  | 0, rows, t => (rows, t)
  | fuel + 1, rows, t =>
    match learnPass rows t with
    | (rows', t', true) => innerAux fuel rows' t'
    | (rows', t', false) => (rows', t')

/-- Repeat `learnPass` until a pass learns nothing. -/
def innerLoop (rows : List Row) (t : Cosets) : List Row × Cosets :=
  innerAux (rows.length + 1) rows t

/-- Errors of the embedded functions.  `invalidPresentation` stands for the
Python `ValueError` of `gens.index` on an unknown symbol and for the failed
`assert` of `schlafli`; `outOfFuel` marks an enumeration that did not
finish within the given fuel (the Python loop would simply still be
running); `tooManyCosets` is produced only by the spec-modelled bounded
variant of the loop. -/
inductive SolveError where
  | invalidPresentation
  | outOfFuel
  | tooManyCosets
deriving Repr, DecidableEq

deriving instance DecidableEq for Except

/-- `gens.index(g)` as an `Option`: index of the first occurrence of `g`
in `gens`, `none` when `g` is absent (where Python raises `ValueError`). -/
def symIndex (gens : List Char) (g : Char) : Option Nat :=
  match gens with
  | [] => none
  | x :: xs => if x = g then some 0 else (symIndex xs g).map (· + 1)

/-- The `while rows:` outer loop of `solve`: stabilise with `innerLoop`,
record `i = len(cosets)`, call `add_coset`; on success spawn one fresh row
per relator anchored at `i` and continue, on failure return the table. -/
def solveLoop (rels : List (List Nat)) : Nat → List Row → Cosets → Except SolveError Cosets
  | fuel, rows, t =>
    if rows.isEmpty then .ok t
    else
      match fuel with
      | 0 => .error .outOfFuel
      | fuel + 1 =>
        let (rows', t') := innerLoop rows t
        let i := t'.cosets.length
        match t'.add_coset with
        | some t'' => solveLoop rels fuel (rows' ++ rels.map (Row.start · i)) t''
        | none => .ok t'

/-- `solve(gens, subgens, rels)`: translate symbols to indices (failing on
a symbol absent from the alphabet, before any table is built), build the
one-coset table, close coset `0` under the subgroup generators, spawn one
row per relator anchored at `0`, and run the outer loop. -/
def solve (gens subgens : List Char) (rels : List (List Char)) (fuel : Nat) :
    Except SolveError Cosets :=
  match rels.mapM (List.mapM (symIndex gens)) with
  | none => .error .invalidPresentation
  | some relsI =>
    match subgens.mapM (symIndex gens) with
    | none => .error .invalidPresentation
    | some subI =>
      let t0 := Cosets.start gens.length gens
      let t1 := subI.foldl (fun t g => t.set 0 g 0) t0
      solveLoop relsI fuel (relsI.map (Row.start · 0)) t1

/-- All unordered pairs of generators in order of first appearance (the
canonical enumeration used to model Python's hash-ordered
`set(frozenset(p) for p in permutations(gens, r=2))`; the iteration order
of a Python set is unspecified, so any fixed order is a faithful model,
and both the code-side and the spec-side relator extension below use this
same order). -/
def allPairs : List Char → List (Char × Char)
  | [] => []
  | g :: rest => rest.map (fun h => (g, h)) ++ allPairs rest

/-- Whether some given relator has symbol set `{g, h}` (the membership
test `frozenset(rel) in inc_links` of `coxeter`). -/
def pairGiven (rels : List (List Char)) (g h : Char) : Bool :=
  rels.any (fun rel =>
    rel.contains g && rel.contains h && rel.all (fun x => x == g || x == h))

/-- The relator extension performed by `coxeter`: the given relators, then
`''.join(link) * 2` for every unordered generator pair whose symbol set is
not the symbol set of a given relator, then `gen * 2` for every
generator. -/
def extendRels (gens : List Char) (rels : List (List Char)) : List (List Char) :=
  rels
    ++ ((allPairs gens).filter (fun p => !pairGiven rels p.1 p.2)).map
        (fun p => [p.1, p.2, p.1, p.2])
    ++ gens.map (fun g => [g, g])

/-- `coxeter(gens, subgens, rels)`: extend the pairwise relators and
delegate to `solve`. -/
def coxeter (gens subgens : List Char) (rels : List (List Char)) (fuel : Nat) :
    Except SolveError Cosets :=
  solve gens subgens (extendRels gens rels) fuel

/-- `pairwise(iterable)`: consecutive pairs `(s0,s1), (s1,s2), ...`. -/
def pairwise (l : List Char) : List (Char × Char) :=
  l.zip l.tail

/-- `''.join(pair) * coeff`: the two-letter word of a generator pair
repeated `coeff` times. -/
def repPair (g h : Char) (coeff : Nat) : List Char :=
  (List.replicate coeff [g, h]).flatten

/-- `schlafli(gens, subgens, rels)`: check `len(gens) == len(rels) + 1`
(the Python `assert`, failing before anything is built), build one
relator per consecutive generator pair, and delegate to `coxeter`. -/
def schlafli (gens subgens : List Char) (coeffs : List Nat) (fuel : Nat) :
    Except SolveError Cosets :=
  if gens.length = coeffs.length + 1 then
    coxeter gens subgens
      (((pairwise gens).zip coeffs).map (fun pc => repPair pc.1.1 pc.1.2 pc.2)) fuel
  else .error .invalidPresentation

/-- The table of a successful run, `none` on any failure. -/
def resultTable : Except SolveError Cosets → Option Cosets
  | .ok t => some t
  | .error _ => none

/-- Coset count of a successful run (`len(cosets)`). -/
def resultLen (r : Except SolveError Cosets) : Option Nat :=
  (resultTable r).map (fun t => t.cosets.length)

/-- Whether every entry of the forward array is defined (the saturation
condition: `add_coset` returns `False` exactly on such tables). -/
def saturatedB (t : Cosets) : Bool :=
  t.cosets.all (fun row => row.all Option.isSome)

/-- Whether the table symmetry invariant holds of every defined forward
entry: `forward[c][g] = t'` implies `reverse[t'][g] = c`. -/
def symmetricB (t : Cosets) : Bool :=
  (List.range t.cosets.length).all fun c =>
    (List.range t.n_gens).all fun g =>
      match t.get c g with
      | none => true
      | some d => t.rget g d == some c

/-- Modelled from the spec: the outer loop of `solve` guarded by a
coset-count ceiling.  The code in `src/toddcox.py` has no ceiling; spec
sections 4.3, 7 and 8 require a production implementation to "accept a
coset-count ceiling and fail with a `TooManyCosets` condition once
exceeded, rather than running unbounded".  Identical to `solveLoop`
except that a successful `add_coset` pushing the coset count beyond the
ceiling fails with `tooManyCosets`. -/
def solveBoundedLoop (ceiling : Nat) (rels : List (List Nat)) :
    Nat → List Row → Cosets → Except SolveError Cosets
  | fuel, rows, t =>
    if rows.isEmpty then .ok t
    else
      match fuel with
      | 0 => .error .outOfFuel
      | fuel + 1 =>
        let (rows', t') := innerLoop rows t
        let i := t'.cosets.length
        match t'.add_coset with
        | some t'' =>
          if ceiling < t''.cosets.length then .error .tooManyCosets
          else solveBoundedLoop ceiling rels fuel (rows' ++ rels.map (Row.start · i)) t''
        | none => .ok t'

/-- Modelled from the spec: `solve` with the configured coset-count
ceiling of spec section 7 (absent from `src/toddcox.py`). -/
def solveBounded (ceiling : Nat) (gens subgens : List Char) (rels : List (List Char))
    (fuel : Nat) : Except SolveError Cosets :=
  match rels.mapM (List.mapM (symIndex gens)) with
  | none => .error .invalidPresentation
  | some relsI =>
    match subgens.mapM (symIndex gens) with
    | none => .error .invalidPresentation
    | some subI =>
      let t0 := Cosets.start gens.length gens
      let t1 := subI.foldl (fun t g => t.set 0 g 0) t0
      solveBoundedLoop ceiling relsI fuel (relsI.map (Row.start · 0)) t1

/-- Replay a generator-index word from coset `0` using only forward
lookups, the round-trip check of spec section 8. -/
def replayWord (t : Cosets) (w : List Nat) : Option Nat :=
  w.foldlM (fun c g => t.get c g) 0

/-- Modelled from the spec: one edge examination of the breadth-first
traversal — "each newly visited coset records the generator edge and
predecessor coset that reached it; a coset's word is its predecessor's
word with that generator appended" (spec section 4.3; `sample.py`
consumes this `words` output but the class in `src/toddcox.py` does not
define it).  The state is the array of recorded words (indexed by coset,
`none` = unvisited) together with the queue; an edge to an unvisited
coset records its word and enqueues it. -/
def bfsStep (t : Cosets) (c : Nat) (wc : List Nat)
    (st : List (Option (List Nat)) × List Nat) (g : Nat) :
    List (Option (List Nat)) × List Nat :=
  match t.get c g with
  | some d =>
    if (st.1.getD d none).isNone then
      (st.1.set d (some (wc ++ [g])), st.2 ++ [d])
    else st
  | none => st

/-- Modelled from the spec: breadth-first expansion of a visited coset
`c` with recorded word `wc` along all its generator edges. -/
def bfsExpand (t : Cosets) (c : Nat) (wc : List Nat)
    (st : List (Option (List Nat)) × List Nat) : List (Option (List Nat)) × List Nat :=
  (List.range t.n_gens).foldl (bfsStep t c wc) st

/-- Number of unvisited cells of a word array (the decreasing measure of
the breadth-first traversal, together with the queue length). -/
def countNone : List (Option (List Nat)) → Nat
  | [] => 0
  | none :: ws => countNone ws + 1
  | some _ :: ws => countNone ws

/-- Modelled from the spec: the breadth-first traversal loop over the
queue of visited cosets.  Fueled; any fuel at least `queue length +
number of table entries` suffices in practice, and the round-trip theorem
below holds for every fuel. -/
def bfsLoop (t : Cosets) : Nat → List Nat → List (Option (List Nat)) → List (Option (List Nat))
  | 0, _, ws => ws
  | _ + 1, [], ws => ws
  | fuel + 1, c :: q, ws =>
    match ws.getD c none with
    | none => bfsLoop t fuel q ws
    | some wc =>
      let st := bfsExpand t c wc (ws, q)
      bfsLoop t fuel st.2 st.1

/-- Modelled from the spec: per-coset representative words, reconstructed
by breadth-first traversal of the forward table graph from coset `0`
(root word = empty sequence). -/
def bfsWords (t : Cosets) (fuel : Nat) : List (Option (List Nat)) :=
  bfsLoop t fuel [0] ((List.replicate t.cosets.length none).set 0 (some []))

/-- The table symmetry invariant as a proposition over all (coset,
generator) positions, bounded or not: every defined forward entry has the
matching reverse entry. -/
def Symm (t : Cosets) : Prop :=
  ∀ c g d, t.get c g = some d → t.rget g d = some c

/-- Bound of one optional table entry by the coset count. -/
def EntryLt (e : Option Nat) (k : Nat) : Prop :=
  ∀ v, e = some v → v < k

instance (e : Option Nat) (k : Nat) : Decidable (EntryLt e k) :=
  match e with
  | none => isTrue (fun _ hv => by cases hv)
  | some u =>
    if h : u < k then isTrue (fun v hv => by cases hv; exact h)
    else isFalse (fun hall => h (hall u rfl))

/-- Well-formedness of the coset table: both arrays have one row per
coset, every row has one column per generator, and every defined entry is
a coset index below the current coset count. -/
def WF (t : Cosets) : Prop :=
  t.rcosets.length = t.cosets.length ∧
  (∀ row ∈ t.cosets, row.length = t.n_gens) ∧
  (∀ row ∈ t.rcosets, row.length = t.n_gens) ∧
  (∀ row ∈ t.cosets, ∀ e ∈ row, EntryLt e t.cosets.length) ∧
  (∀ row ∈ t.rcosets, ∀ e ∈ row, EntryLt e t.cosets.length)

/-- Well-formedness of a relation row with respect to a table with `k`
cosets and `n` generators: relator symbols are generator indices, both
anchors are live coset indices, and the window is within the relator. -/
def RowWF (k n : Nat) (r : Row) : Prop :=
  (∀ g ∈ r.rel, g < n) ∧ r.left_coset < k ∧ r.right_target < k ∧
  r.left ≤ r.right ∧ r.right ≤ r.rel.length

/-- Reachability from the base coset along defined forward edges. -/
inductive Reach (t : Cosets) : Nat → Prop where
  | base : Reach t 0
  | step {c g d : Nat} : Reach t c → t.get c g = some d → Reach t d

/-- Whether some given relator has symbol set `{g, h}`, written from the
spec's words for claim C5: the unordered pair `{g, h}` is "already given
a relator" when a relator of the input uses exactly the symbols `g` and
`h`. -/
def givenRelator (rels : List (List Char)) (g h : Char) : Prop :=
  ∃ rel ∈ rels, g ∈ rel ∧ h ∈ rel ∧ ∀ x ∈ rel, x = g ∨ x = h

instance (rels : List (List Char)) (g h : Char) : Decidable (givenRelator rels g h) :=
  List.decidableBEx _ rels

/-- The relator extension described by claim C5 and spec section 4.4,
written from the spec's words: the input relators, extended with a
commuting relator `(gh)(gh)` for every unordered generator pair not
already given a relator, and an order-2 relator `gg` for every generator
(a single generator is never one of the unordered pairs, so none is
"already paired" by the pairwise relator set). -/
def specExtendRels (gens : List Char) (rels : List (List Char)) : List (List Char) :=
  rels
    ++ ((allPairs gens).filter (fun p => decide (¬ givenRelator rels p.1 p.2))).map
        (fun p => [p.1, p.2, p.1, p.2])
    ++ gens.map (fun g => [g, g])

/-! List access helper lemmas for the `getD` / `set` cell operations. -/

theorem lgetD_of_le {α : Type} (l : List α) (i : Nat) (d : α) (h : l.length ≤ i) :
    l.getD i d = d := by
  induction l generalizing i with
  | nil => cases i <;> rfl
  | cons x xs ih =>
    cases i with
    | zero => simp at h
    | succ n => simpa using ih n (by simpa using h)

theorem lset_of_le {α : Type} (l : List α) (i : Nat) (v : α) (h : l.length ≤ i) :
    l.set i v = l := by
  induction l generalizing i with
  | nil => rfl
  | cons x xs ih =>
    cases i with
    | zero => simp at h
    | succ n => simpa using ih n (by simpa using h)

theorem lgetD_set_eq {α : Type} (l : List α) (i : Nat) (v d : α) (h : i < l.length) :
    (l.set i v).getD i d = v := by
  induction l generalizing i with
  | nil => simp at h
  | cons x xs ih =>
    cases i with
    | zero => rfl
    | succ n => simpa using ih n (by simpa using h)

theorem lgetD_set_ne {α : Type} (l : List α) (i j : Nat) (v d : α) (h : i ≠ j) :
    (l.set i v).getD j d = l.getD j d := by
  induction l generalizing i j with
  | nil => rfl
  | cons x xs ih =>
    cases i with
    | zero =>
      cases j with
      | zero => exact absurd rfl h
      | succ m => rfl
    | succ n =>
      cases j with
      | zero => rfl
      | succ m => simpa using ih n m (fun hnm => h (by rw [hnm]))

theorem lgetD_append_lt {α : Type} (l m : List α) (i : Nat) (d : α) (h : i < l.length) :
    (l ++ m).getD i d = l.getD i d := by
  induction l generalizing i with
  | nil => simp at h
  | cons x xs ih =>
    cases i with
    | zero => rfl
    | succ n => simpa using ih n (by simpa using h)

theorem lgetD_append_len {α : Type} (l : List α) (x d : α) :
    (l ++ [x]).getD l.length d = x := by
  induction l with
  | nil => rfl
  | cons y ys ih => simp [ih]

theorem lgetD_mem {α : Type} (l : List α) (i : Nat) (d : α) (h : i < l.length) :
    l.getD i d ∈ l := by
  induction l generalizing i with
  | nil => simp at h
  | cons x xs ih =>
    cases i with
    | zero => exact List.mem_cons_self x xs
    | succ n => exact List.mem_cons_of_mem x (ih n (by simpa using h))

theorem lgetD_ne_mem {α : Type} (l : List α) (i : Nat) (d : α) (h : l.getD i d ≠ d) :
    l.getD i d ∈ l := by
  rcases Nat.lt_or_ge i l.length with h' | h'
  · exact lgetD_mem l i d h'
  · exact absurd (lgetD_of_le l i d h') h

theorem lgetD_replicate {α : Type} (n i : Nat) (d : α) :
    (List.replicate n d).getD i d = d := by
  induction n generalizing i with
  | zero => cases i <;> rfl
  | succ m ih =>
    cases i with
    | zero => rfl
    | succ k => simp [ih k]

theorem upd2_eq_set (m : List (List (Option Nat))) (i j : Nat) (v : Option Nat) :
    upd2 m i j v = m.set i ((m.getD i []).set j v) := by
  induction m generalizing i with
  | nil => rfl
  | cons row rest ih =>
    cases i with
    | zero => rfl
    | succ n => simp [upd2, ih n]

/-! Saturation: `add_coset` returns `none` exactly on saturated tables. -/

theorem findNoneRow_none_iff (row : List (Option Nat)) :
    findNoneRow row = none ↔ row.all Option.isSome = true := by
  induction row with
  | nil => simp [findNoneRow]
  | cons e xs ih =>
    cases e with
    | none => simp [findNoneRow]
    | some v => simpa [findNoneRow] using ih

theorem findNone_none_iff (m : List (List (Option Nat))) :
    findNone m = none ↔ m.all (fun row => row.all Option.isSome) = true := by
  induction m with
  | nil => simp [findNone]
  | cons row rest ih =>
    simp only [findNone, List.all_cons, Bool.and_eq_true]
    rcases h : findNoneRow row with _ | j
    · simpa [(findNoneRow_none_iff row).mp h] using ih
    · constructor
      · intro hx
        simp at hx
      · rintro ⟨hrow, -⟩
        rw [(findNoneRow_none_iff row).mpr hrow] at h
        cases h

theorem add_coset_none_iff (t : Cosets) :
    t.add_coset = none ↔ saturatedB t = true := by
  rw [Cosets.add_coset, saturatedB]
  rcases h : findNone t.cosets with _ | p
  · simpa using (findNone_none_iff t.cosets).mp h
  · constructor
    · intro hx
      simp at hx
    · intro hsat
      rw [(findNone_none_iff t.cosets).mpr hsat] at h
      cases h

/-- When the relator list is nonempty, the outer loop can only return a
table through the `add_coset = none` branch, so the returned table is
saturated. -/
theorem solveLoop_ok_saturated (rels : List (List Nat)) (hrels : rels ≠ []) :
    ∀ (fuel : Nat) (rows : List Row) (t t' : Cosets), rows ≠ [] →
      solveLoop rels fuel rows t = .ok t' → saturatedB t' = true := by
  intro fuel
  induction fuel with
  | zero =>
    intro rows t t' hrows h
    rw [solveLoop, if_neg (by simpa using hrows)] at h
    cases h
  | succ n ih =>
    intro rows t t' hrows h
    rw [solveLoop, if_neg (by simpa using hrows)] at h
    rcases hInner : innerLoop rows t with ⟨rows2, t2⟩
    rw [hInner] at h
    simp only at h
    rcases hadd : t2.add_coset with _ | t3
    · rw [hadd] at h
      simp only [Except.ok.injEq] at h
      subst h
      exact (add_coset_none_iff t2).mp hadd
    · rw [hadd] at h
      simp only at h
      refine ih _ _ _ ?_ h
      simp [hrels]

theorem mapM_some_ne_nil {α β : Type} {f : α → Option β} {l : List α} {l' : List β}
    (h : l.mapM f = some l') (hne : l ≠ []) : l' ≠ [] := by
  cases l with
  | nil => exact absurd rfl hne
  | cons x xs =>
    simp only [List.mapM_cons, Option.bind_eq_bind, Option.bind_eq_some,
      Option.pure_def, Option.some.injEq] at h
    obtain ⟨y, -, ys, -, hl'⟩ := h
    rw [← hl']
    simp

/-- Stepping lemma for the outer loop: one iteration whose `add_coset`
succeeds. -/
theorem solveLoop_step_some (rels : List (List Nat)) (fuel : Nat)
    (rows rows' newRows : List Row) (t t' t'' : Cosets)
    (hne : rows.isEmpty = false)
    (hinner : innerLoop rows t = (rows', t'))
    (hadd : t'.add_coset = some t'')
    (hrows : rows' ++ rels.map (Row.start · t'.cosets.length) = newRows) :
    solveLoop rels (fuel + 1) rows t = solveLoop rels fuel newRows t'' := by
  rw [solveLoop]
  simp only [hne, Bool.false_eq_true, if_false, hinner, hadd, hrows]

theorem solveLoop_step_none (rels : List (List Nat)) (fuel : Nat) (rows rows' : List Row)
    (t t' : Cosets) (hne : rows.isEmpty = false)
    (hinner : innerLoop rows t = (rows', t'))
    (hadd : t'.add_coset = none) :
    solveLoop rels (fuel + 1) rows t = .ok t' := by
  rw [solveLoop]
  simp only [hne, Bool.false_eq_true, if_false, hinner, hadd]

/-- The presentation-building and symbol-translation prefix of the C1 run,
reduced to an explicit first `solveLoop` state. -/
theorem c1_pre : schlafli ['a', 'b'] ['a'] [5] 50 =
    solveLoop [[0,1,0,1,0,1,0,1,0,1],[0,0],[1,1]] 50
      [{ rel := [0, 1, 0, 1, 0, 1, 0, 1, 0, 1], left := 0, right := 10, left_coset := 0, right_target := 0 },
       { rel := [0, 0], left := 0, right := 2, left_coset := 0, right_target := 0 },
       { rel := [1, 1], left := 0, right := 2, left_coset := 0, right_target := 0 }]
      { names := ['a', 'b'], n_gens := 2, cosets := [[some 0, none]], rcosets := [[some 0, none]] } := by
  rw [schlafli, if_pos (by decide : List.length ['a', 'b'] = List.length [5] + 1), coxeter]
  have hx : extendRels ['a', 'b']
      (((pairwise ['a', 'b']).zip [5]).map (fun pc => repPair pc.1.1 pc.1.2 pc.2)) =
      [['a','b','a','b','a','b','a','b','a','b'], ['a','a'], ['b','b']] := by decide
  rw [hx, solve]
  have hm1 : [['a','b','a','b','a','b','a','b','a','b'], ['a','a'], ['b','b']].mapM
      (List.mapM (symIndex ['a', 'b'])) = some [[0,1,0,1,0,1,0,1,0,1],[0,0],[1,1]] := by decide
  have hm2 : List.mapM (symIndex ['a', 'b']) ['a'] = some [0] := by decide
  rw [hm1, hm2]
  show solveLoop [[0,1,0,1,0,1,0,1,0,1],[0,0],[1,1]] 50
      ([[0,1,0,1,0,1,0,1,0,1],[0,0],[1,1]].map (Row.start · 0))
      ([0].foldl (fun t g => Cosets.set t 0 g 0) (Cosets.start (List.length ['a', 'b']) ['a', 'b'])) = _
  have hr : [[0,1,0,1,0,1,0,1,0,1],[0,0],[1,1]].map (Row.start · 0) =
      [{ rel := [0, 1, 0, 1, 0, 1, 0, 1, 0, 1], left := 0, right := 10, left_coset := 0, right_target := 0 },
       { rel := [0, 0], left := 0, right := 2, left_coset := 0, right_target := 0 },
       { rel := [1, 1], left := 0, right := 2, left_coset := 0, right_target := 0 }] := by decide
  have ht : [0].foldl (fun t g => Cosets.set t 0 g 0) (Cosets.start (List.length ['a', 'b']) ['a', 'b']) =
      { names := ['a', 'b'], n_gens := 2, cosets := [[some 0, none]], rcosets := [[some 0, none]] } := by decide
  rw [hr, ht]

/-- C1: calling `schlafli` with generators `['a','b']`, subgroup
generators `['a']` and coefficients `(5,)` terminates (within fuel 50,
which the run does not exhaust) and produces a coset table with exactly 5
cosets.  The proof replays the enumeration one outer iteration at a time
through explicit intermediate tables. -/
theorem claim_C1 : resultLen (schlafli ['a', 'b'] ['a'] [5] 50) = some 5 := by
  rw [c1_pre]
  rw [solveLoop_step_some [[0,1,0,1,0,1,0,1,0,1],[0,0],[1,1]] 49
      [{ rel := [0, 1, 0, 1, 0, 1, 0, 1, 0, 1], left := 0, right := 10, left_coset := 0, right_target := 0 }, { rel := [0, 0], left := 0, right := 2, left_coset := 0, right_target := 0 }, { rel := [1, 1], left := 0, right := 2, left_coset := 0, right_target := 0 }]
      [{ rel := [0, 1, 0, 1, 0, 1, 0, 1, 0, 1], left := 1, right := 10, left_coset := 0, right_target := 0 }, { rel := [1, 1], left := 0, right := 2, left_coset := 0, right_target := 0 }]
      [{ rel := [0, 1, 0, 1, 0, 1, 0, 1, 0, 1], left := 1, right := 10, left_coset := 0, right_target := 0 }, { rel := [1, 1], left := 0, right := 2, left_coset := 0, right_target := 0 }, { rel := [0, 1, 0, 1, 0, 1, 0, 1, 0, 1], left := 0, right := 10, left_coset := 1, right_target := 1 }, { rel := [0, 0], left := 0, right := 2, left_coset := 1, right_target := 1 }, { rel := [1, 1], left := 0, right := 2, left_coset := 1, right_target := 1 }]
      { names := ['a', 'b'], n_gens := 2, cosets := [[some 0, none]], rcosets := [[some 0, none]] }
      { names := ['a', 'b'], n_gens := 2, cosets := [[some 0, none]], rcosets := [[some 0, none]] }
      { names := ['a', 'b'], n_gens := 2, cosets := [[some 0, some 1], [none, none]], rcosets := [[some 0, none], [none, some 0]] }
      (by decide) (by decide) (by decide) (by decide)]
  rw [solveLoop_step_some [[0,1,0,1,0,1,0,1,0,1],[0,0],[1,1]] 48
      [{ rel := [0, 1, 0, 1, 0, 1, 0, 1, 0, 1], left := 1, right := 10, left_coset := 0, right_target := 0 }, { rel := [1, 1], left := 0, right := 2, left_coset := 0, right_target := 0 }, { rel := [0, 1, 0, 1, 0, 1, 0, 1, 0, 1], left := 0, right := 10, left_coset := 1, right_target := 1 }, { rel := [0, 0], left := 0, right := 2, left_coset := 1, right_target := 1 }, { rel := [1, 1], left := 0, right := 2, left_coset := 1, right_target := 1 }]
      [{ rel := [0, 1, 0, 1, 0, 1, 0, 1, 0, 1], left := 2, right := 9, left_coset := 1, right_target := 1 }, { rel := [0, 1, 0, 1, 0, 1, 0, 1, 0, 1], left := 0, right := 7, left_coset := 1, right_target := 1 }, { rel := [0, 0], left := 0, right := 2, left_coset := 1, right_target := 1 }]
      [{ rel := [0, 1, 0, 1, 0, 1, 0, 1, 0, 1], left := 2, right := 9, left_coset := 1, right_target := 1 }, { rel := [0, 1, 0, 1, 0, 1, 0, 1, 0, 1], left := 0, right := 7, left_coset := 1, right_target := 1 }, { rel := [0, 0], left := 0, right := 2, left_coset := 1, right_target := 1 }, { rel := [0, 1, 0, 1, 0, 1, 0, 1, 0, 1], left := 0, right := 10, left_coset := 2, right_target := 2 }, { rel := [0, 0], left := 0, right := 2, left_coset := 2, right_target := 2 }, { rel := [1, 1], left := 0, right := 2, left_coset := 2, right_target := 2 }]
      { names := ['a', 'b'], n_gens := 2, cosets := [[some 0, some 1], [none, none]], rcosets := [[some 0, none], [none, some 0]] }
      { names := ['a', 'b'], n_gens := 2, cosets := [[some 0, some 1], [none, some 0]], rcosets := [[some 0, some 1], [none, some 0]] }
      { names := ['a', 'b'], n_gens := 2, cosets := [[some 0, some 1], [some 2, some 0], [none, none]], rcosets := [[some 0, some 1], [none, some 0], [some 1, none]] }
      (by decide) (by decide) (by decide) (by decide)]
  rw [solveLoop_step_some [[0,1,0,1,0,1,0,1,0,1],[0,0],[1,1]] 47
      [{ rel := [0, 1, 0, 1, 0, 1, 0, 1, 0, 1], left := 2, right := 9, left_coset := 1, right_target := 1 }, { rel := [0, 1, 0, 1, 0, 1, 0, 1, 0, 1], left := 0, right := 7, left_coset := 1, right_target := 1 }, { rel := [0, 0], left := 0, right := 2, left_coset := 1, right_target := 1 }, { rel := [0, 1, 0, 1, 0, 1, 0, 1, 0, 1], left := 0, right := 10, left_coset := 2, right_target := 2 }, { rel := [0, 0], left := 0, right := 2, left_coset := 2, right_target := 2 }, { rel := [1, 1], left := 0, right := 2, left_coset := 2, right_target := 2 }]
      [{ rel := [0, 1, 0, 1, 0, 1, 0, 1, 0, 1], left := 3, right := 8, left_coset := 2, right_target := 2 }, { rel := [0, 1, 0, 1, 0, 1, 0, 1, 0, 1], left := 1, right := 6, left_coset := 2, right_target := 2 }, { rel := [0, 1, 0, 1, 0, 1, 0, 1, 0, 1], left := 5, right := 10, left_coset := 2, right_target := 2 }, { rel := [1, 1], left := 0, right := 2, left_coset := 2, right_target := 2 }]
      [{ rel := [0, 1, 0, 1, 0, 1, 0, 1, 0, 1], left := 3, right := 8, left_coset := 2, right_target := 2 }, { rel := [0, 1, 0, 1, 0, 1, 0, 1, 0, 1], left := 1, right := 6, left_coset := 2, right_target := 2 }, { rel := [0, 1, 0, 1, 0, 1, 0, 1, 0, 1], left := 5, right := 10, left_coset := 2, right_target := 2 }, { rel := [1, 1], left := 0, right := 2, left_coset := 2, right_target := 2 }, { rel := [0, 1, 0, 1, 0, 1, 0, 1, 0, 1], left := 0, right := 10, left_coset := 3, right_target := 3 }, { rel := [0, 0], left := 0, right := 2, left_coset := 3, right_target := 3 }, { rel := [1, 1], left := 0, right := 2, left_coset := 3, right_target := 3 }]
      { names := ['a', 'b'], n_gens := 2, cosets := [[some 0, some 1], [some 2, some 0], [none, none]], rcosets := [[some 0, some 1], [none, some 0], [some 1, none]] }
      { names := ['a', 'b'], n_gens := 2, cosets := [[some 0, some 1], [some 2, some 0], [some 1, none]], rcosets := [[some 0, some 1], [some 2, some 0], [some 1, none]] }
      { names := ['a', 'b'], n_gens := 2, cosets := [[some 0, some 1], [some 2, some 0], [some 1, some 3], [none, none]], rcosets := [[some 0, some 1], [some 2, some 0], [some 1, none], [none, some 2]] }
      (by decide) (by decide) (by decide) (by decide)]
  rw [solveLoop_step_some [[0,1,0,1,0,1,0,1,0,1],[0,0],[1,1]] 46
      [{ rel := [0, 1, 0, 1, 0, 1, 0, 1, 0, 1], left := 3, right := 8, left_coset := 2, right_target := 2 }, { rel := [0, 1, 0, 1, 0, 1, 0, 1, 0, 1], left := 1, right := 6, left_coset := 2, right_target := 2 }, { rel := [0, 1, 0, 1, 0, 1, 0, 1, 0, 1], left := 5, right := 10, left_coset := 2, right_target := 2 }, { rel := [1, 1], left := 0, right := 2, left_coset := 2, right_target := 2 }, { rel := [0, 1, 0, 1, 0, 1, 0, 1, 0, 1], left := 0, right := 10, left_coset := 3, right_target := 3 }, { rel := [0, 0], left := 0, right := 2, left_coset := 3, right_target := 3 }, { rel := [1, 1], left := 0, right := 2, left_coset := 3, right_target := 3 }]
      [{ rel := [0, 1, 0, 1, 0, 1, 0, 1, 0, 1], left := 4, right := 7, left_coset := 3, right_target := 3 }, { rel := [0, 1, 0, 1, 0, 1, 0, 1, 0, 1], left := 2, right := 5, left_coset := 3, right_target := 3 }, { rel := [0, 1, 0, 1, 0, 1, 0, 1, 0, 1], left := 6, right := 9, left_coset := 3, right_target := 3 }, { rel := [0, 1, 0, 1, 0, 1, 0, 1, 0, 1], left := 0, right := 3, left_coset := 3, right_target := 3 }, { rel := [0, 0], left := 0, right := 2, left_coset := 3, right_target := 3 }]
      [{ rel := [0, 1, 0, 1, 0, 1, 0, 1, 0, 1], left := 4, right := 7, left_coset := 3, right_target := 3 }, { rel := [0, 1, 0, 1, 0, 1, 0, 1, 0, 1], left := 2, right := 5, left_coset := 3, right_target := 3 }, { rel := [0, 1, 0, 1, 0, 1, 0, 1, 0, 1], left := 6, right := 9, left_coset := 3, right_target := 3 }, { rel := [0, 1, 0, 1, 0, 1, 0, 1, 0, 1], left := 0, right := 3, left_coset := 3, right_target := 3 }, { rel := [0, 0], left := 0, right := 2, left_coset := 3, right_target := 3 }, { rel := [0, 1, 0, 1, 0, 1, 0, 1, 0, 1], left := 0, right := 10, left_coset := 4, right_target := 4 }, { rel := [0, 0], left := 0, right := 2, left_coset := 4, right_target := 4 }, { rel := [1, 1], left := 0, right := 2, left_coset := 4, right_target := 4 }]
      { names := ['a', 'b'], n_gens := 2, cosets := [[some 0, some 1], [some 2, some 0], [some 1, some 3], [none, none]], rcosets := [[some 0, some 1], [some 2, some 0], [some 1, none], [none, some 2]] }
      { names := ['a', 'b'], n_gens := 2, cosets := [[some 0, some 1], [some 2, some 0], [some 1, some 3], [none, some 2]], rcosets := [[some 0, some 1], [some 2, some 0], [some 1, some 3], [none, some 2]] }
      { names := ['a', 'b'], n_gens := 2, cosets := [[some 0, some 1], [some 2, some 0], [some 1, some 3], [some 4, some 2], [none, none]], rcosets := [[some 0, some 1], [some 2, some 0], [some 1, some 3], [none, some 2], [some 3, none]] }
      (by decide) (by decide) (by decide) (by decide)]
  rw [solveLoop_step_none [[0,1,0,1,0,1,0,1,0,1],[0,0],[1,1]] 45
      [{ rel := [0, 1, 0, 1, 0, 1, 0, 1, 0, 1], left := 4, right := 7, left_coset := 3, right_target := 3 }, { rel := [0, 1, 0, 1, 0, 1, 0, 1, 0, 1], left := 2, right := 5, left_coset := 3, right_target := 3 }, { rel := [0, 1, 0, 1, 0, 1, 0, 1, 0, 1], left := 6, right := 9, left_coset := 3, right_target := 3 }, { rel := [0, 1, 0, 1, 0, 1, 0, 1, 0, 1], left := 0, right := 3, left_coset := 3, right_target := 3 }, { rel := [0, 0], left := 0, right := 2, left_coset := 3, right_target := 3 }, { rel := [0, 1, 0, 1, 0, 1, 0, 1, 0, 1], left := 0, right := 10, left_coset := 4, right_target := 4 }, { rel := [0, 0], left := 0, right := 2, left_coset := 4, right_target := 4 }, { rel := [1, 1], left := 0, right := 2, left_coset := 4, right_target := 4 }]
      []
      { names := ['a', 'b'], n_gens := 2, cosets := [[some 0, some 1], [some 2, some 0], [some 1, some 3], [some 4, some 2], [none, none]], rcosets := [[some 0, some 1], [some 2, some 0], [some 1, some 3], [none, some 2], [some 3, none]] }
      { names := ['a', 'b'], n_gens := 2, cosets := [[some 0, some 1], [some 2, some 0], [some 1, some 3], [some 4, some 2], [some 3, some 4]], rcosets := [[some 0, some 1], [some 2, some 0], [some 1, some 3], [some 4, some 2], [some 3, some 4]] }
      (by decide) (by decide) (by decide)]
  rfl

/-- C2, counterexample to the claim as stated: with an empty relator list
the outer loop body never runs, and `solve` returns normally with a table
whose single entry is undefined, so not every normal return is
saturated. -/
theorem claim_C2_counterexample :
    (resultTable (solve ['a'] [] [] 1)).map saturatedB = some false := by
  decide

/-- C2, amended: whenever `solve` returns normally and the relator list
is nonempty, the returned table is saturated (every forward entry
defined).  With no relators no rows are ever created, the `while rows:`
loop never runs, and the start table is returned as is. -/
theorem claim_C2 (gens subgens : List Char) (rels : List (List Char)) (fuel : Nat)
    (t : Cosets) (hrels : rels ≠ []) (h : solve gens subgens rels fuel = .ok t) :
    saturatedB t = true := by
  rw [solve] at h
  rcases hr : rels.mapM (List.mapM (symIndex gens)) with _ | relsI <;> rw [hr] at h
  · cases h
  rcases hs : subgens.mapM (symIndex gens) with _ | subI <;> rw [hs] at h
  · cases h
  simp only at h
  have hrelsI : relsI ≠ [] := mapM_some_ne_nil hr hrels
  refine solveLoop_ok_saturated relsI hrelsI fuel _ _ t ?_ h
  simpa using hrelsI

/-- C2, witness for the amended claim at a concrete input. -/
theorem claim_C2_witness :
    saturatedB ⟨['a'], 1, [[some 0]], [[some 0]]⟩ = true :=
  claim_C2 ['a'] ['a'] [['a', 'a']] 5 ⟨['a'], 1, [[some 0]], [[some 0]]⟩
    (by decide) (by decide)

/-- C7, counterexample to the claim as stated: under the spec-modelled
coset-count ceiling of 50, the presentation with two generators, no
relators and no subgroup generators does not raise `TooManyCosets` — with
no relators no relation rows exist, so the enumeration loop body (the only
place cosets are created) never runs. -/
theorem claim_C7_counterexample :
    solveBounded 50 ['a', 'b'] [] [] 10 ≠ .error .tooManyCosets := by
  decide

/-- Stepping lemmas for the spec-modelled bounded outer loop, and the
bounded growth run of the infinite dihedral presentation replayed one
iteration at a time. -/
theorem solveBoundedLoop_step_some (ceiling : Nat) (rels : List (List Nat)) (fuel : Nat)
    (rows rows' newRows : List Row) (t t' t'' : Cosets)
    (hne : rows.isEmpty = false)
    (hinner : innerLoop rows t = (rows', t'))
    (hadd : t'.add_coset = some t'')
    (hc : ¬ ceiling < t''.cosets.length)
    (hrows : rows' ++ rels.map (Row.start · t'.cosets.length) = newRows) :
    solveBoundedLoop ceiling rels (fuel + 1) rows t =
      solveBoundedLoop ceiling rels fuel newRows t'' := by
  rw [solveBoundedLoop]
  simp only [hne, Bool.false_eq_true, if_false, hinner, hadd, hrows]
  rw [if_neg hc]

theorem solveBoundedLoop_step_tooMany (ceiling : Nat) (rels : List (List Nat)) (fuel : Nat)
    (rows rows' : List Row) (t t' t'' : Cosets)
    (hne : rows.isEmpty = false)
    (hinner : innerLoop rows t = (rows', t'))
    (hadd : t'.add_coset = some t'')
    (hc : ceiling < t''.cosets.length) :
    solveBoundedLoop ceiling rels (fuel + 1) rows t = .error .tooManyCosets := by
  rw [solveBoundedLoop]
  simp only [hne, Bool.false_eq_true, if_false, hinner, hadd]
  rw [if_pos hc]

theorem c7_pre : solveBounded 5 ['a', 'b'] [] [['a', 'a'], ['b', 'b']] 10 =
    solveBoundedLoop 5 [[0,0],[1,1]] 10
      [{ rel := [0, 0], left := 0, right := 2, left_coset := 0, right_target := 0 },
       { rel := [1, 1], left := 0, right := 2, left_coset := 0, right_target := 0 }]
      { names := ['a', 'b'], n_gens := 2, cosets := [[none, none]], rcosets := [[none, none]] } := by
  rw [solveBounded]
  have hm1 : [['a', 'a'], ['b', 'b']].mapM (List.mapM (symIndex ['a', 'b'])) =
      some [[0,0],[1,1]] := by decide
  have hm2 : List.mapM (symIndex ['a', 'b']) ([] : List Char) = some [] := by decide
  rw [hm1, hm2]
  show solveBoundedLoop 5 [[0,0],[1,1]] 10
      ([[0,0],[1,1]].map (Row.start · 0))
      (([] : List Nat).foldl (fun t g => Cosets.set t 0 g 0)
        (Cosets.start (List.length ['a', 'b']) ['a', 'b'])) = _
  have hr : [[0,0],[1,1]].map (Row.start · 0) =
      [{ rel := [0, 0], left := 0, right := 2, left_coset := 0, right_target := 0 },
       { rel := [1, 1], left := 0, right := 2, left_coset := 0, right_target := 0 }] := by decide
  have ht : ([] : List Nat).foldl (fun t g => Cosets.set t 0 g 0)
      (Cosets.start (List.length ['a', 'b']) ['a', 'b']) =
      { names := ['a', 'b'], n_gens := 2, cosets := [[none, none]], rcosets := [[none, none]] } := by decide
  rw [hr, ht]

/-- Growth of the infinite-dihedral enumeration under a ceiling of 5:
the sixth coset exceeds the ceiling. -/
theorem c7_growth : solveBounded 5 ['a', 'b'] [] [['a', 'a'], ['b', 'b']] 10 = .error .tooManyCosets := by
  rw [c7_pre]
  rw [solveBoundedLoop_step_some 5 [[0,0],[1,1]] 9
      [{ rel := [0, 0], left := 0, right := 2, left_coset := 0, right_target := 0 }, { rel := [1, 1], left := 0, right := 2, left_coset := 0, right_target := 0 }]
      [{ rel := [0, 0], left := 0, right := 2, left_coset := 0, right_target := 0 }, { rel := [1, 1], left := 0, right := 2, left_coset := 0, right_target := 0 }]
      [{ rel := [0, 0], left := 0, right := 2, left_coset := 0, right_target := 0 }, { rel := [1, 1], left := 0, right := 2, left_coset := 0, right_target := 0 }, { rel := [0, 0], left := 0, right := 2, left_coset := 1, right_target := 1 }, { rel := [1, 1], left := 0, right := 2, left_coset := 1, right_target := 1 }]
      { names := ['a', 'b'], n_gens := 2, cosets := [[none, none]], rcosets := [[none, none]] }
      { names := ['a', 'b'], n_gens := 2, cosets := [[none, none]], rcosets := [[none, none]] }
      { names := ['a', 'b'], n_gens := 2, cosets := [[some 1, none], [none, none]], rcosets := [[none, none], [some 0, none]] }
      (by decide) (by decide) (by decide) (by decide) (by decide)]
  rw [solveBoundedLoop_step_some 5 [[0,0],[1,1]] 8
      [{ rel := [0, 0], left := 0, right := 2, left_coset := 0, right_target := 0 }, { rel := [1, 1], left := 0, right := 2, left_coset := 0, right_target := 0 }, { rel := [0, 0], left := 0, right := 2, left_coset := 1, right_target := 1 }, { rel := [1, 1], left := 0, right := 2, left_coset := 1, right_target := 1 }]
      [{ rel := [1, 1], left := 0, right := 2, left_coset := 0, right_target := 0 }, { rel := [1, 1], left := 0, right := 2, left_coset := 1, right_target := 1 }]
      [{ rel := [1, 1], left := 0, right := 2, left_coset := 0, right_target := 0 }, { rel := [1, 1], left := 0, right := 2, left_coset := 1, right_target := 1 }, { rel := [0, 0], left := 0, right := 2, left_coset := 2, right_target := 2 }, { rel := [1, 1], left := 0, right := 2, left_coset := 2, right_target := 2 }]
      { names := ['a', 'b'], n_gens := 2, cosets := [[some 1, none], [none, none]], rcosets := [[none, none], [some 0, none]] }
      { names := ['a', 'b'], n_gens := 2, cosets := [[some 1, none], [some 0, none]], rcosets := [[some 1, none], [some 0, none]] }
      { names := ['a', 'b'], n_gens := 2, cosets := [[some 1, some 2], [some 0, none], [none, none]], rcosets := [[some 1, none], [some 0, none], [none, some 0]] }
      (by decide) (by decide) (by decide) (by decide) (by decide)]
  rw [solveBoundedLoop_step_some 5 [[0,0],[1,1]] 7
      [{ rel := [1, 1], left := 0, right := 2, left_coset := 0, right_target := 0 }, { rel := [1, 1], left := 0, right := 2, left_coset := 1, right_target := 1 }, { rel := [0, 0], left := 0, right := 2, left_coset := 2, right_target := 2 }, { rel := [1, 1], left := 0, right := 2, left_coset := 2, right_target := 2 }]
      [{ rel := [1, 1], left := 0, right := 2, left_coset := 1, right_target := 1 }, { rel := [0, 0], left := 0, right := 2, left_coset := 2, right_target := 2 }]
      [{ rel := [1, 1], left := 0, right := 2, left_coset := 1, right_target := 1 }, { rel := [0, 0], left := 0, right := 2, left_coset := 2, right_target := 2 }, { rel := [0, 0], left := 0, right := 2, left_coset := 3, right_target := 3 }, { rel := [1, 1], left := 0, right := 2, left_coset := 3, right_target := 3 }]
      { names := ['a', 'b'], n_gens := 2, cosets := [[some 1, some 2], [some 0, none], [none, none]], rcosets := [[some 1, none], [some 0, none], [none, some 0]] }
      { names := ['a', 'b'], n_gens := 2, cosets := [[some 1, some 2], [some 0, none], [none, some 0]], rcosets := [[some 1, some 2], [some 0, none], [none, some 0]] }
      { names := ['a', 'b'], n_gens := 2, cosets := [[some 1, some 2], [some 0, some 3], [none, some 0], [none, none]], rcosets := [[some 1, some 2], [some 0, none], [none, some 0], [none, some 1]] }
      (by decide) (by decide) (by decide) (by decide) (by decide)]
  rw [solveBoundedLoop_step_some 5 [[0,0],[1,1]] 6
      [{ rel := [1, 1], left := 0, right := 2, left_coset := 1, right_target := 1 }, { rel := [0, 0], left := 0, right := 2, left_coset := 2, right_target := 2 }, { rel := [0, 0], left := 0, right := 2, left_coset := 3, right_target := 3 }, { rel := [1, 1], left := 0, right := 2, left_coset := 3, right_target := 3 }]
      [{ rel := [0, 0], left := 0, right := 2, left_coset := 2, right_target := 2 }, { rel := [0, 0], left := 0, right := 2, left_coset := 3, right_target := 3 }]
      [{ rel := [0, 0], left := 0, right := 2, left_coset := 2, right_target := 2 }, { rel := [0, 0], left := 0, right := 2, left_coset := 3, right_target := 3 }, { rel := [0, 0], left := 0, right := 2, left_coset := 4, right_target := 4 }, { rel := [1, 1], left := 0, right := 2, left_coset := 4, right_target := 4 }]
      { names := ['a', 'b'], n_gens := 2, cosets := [[some 1, some 2], [some 0, some 3], [none, some 0], [none, none]], rcosets := [[some 1, some 2], [some 0, none], [none, some 0], [none, some 1]] }
      { names := ['a', 'b'], n_gens := 2, cosets := [[some 1, some 2], [some 0, some 3], [none, some 0], [none, some 1]], rcosets := [[some 1, some 2], [some 0, some 3], [none, some 0], [none, some 1]] }
      { names := ['a', 'b'], n_gens := 2, cosets := [[some 1, some 2], [some 0, some 3], [some 4, some 0], [none, some 1], [none, none]], rcosets := [[some 1, some 2], [some 0, some 3], [none, some 0], [none, some 1], [some 2, none]] }
      (by decide) (by decide) (by decide) (by decide) (by decide)]
  exact solveBoundedLoop_step_tooMany 5 [[0,0],[1,1]] 5
      [{ rel := [0, 0], left := 0, right := 2, left_coset := 2, right_target := 2 }, { rel := [0, 0], left := 0, right := 2, left_coset := 3, right_target := 3 }, { rel := [0, 0], left := 0, right := 2, left_coset := 4, right_target := 4 }, { rel := [1, 1], left := 0, right := 2, left_coset := 4, right_target := 4 }]
      [{ rel := [0, 0], left := 0, right := 2, left_coset := 3, right_target := 3 }, { rel := [1, 1], left := 0, right := 2, left_coset := 4, right_target := 4 }]
      { names := ['a', 'b'], n_gens := 2, cosets := [[some 1, some 2], [some 0, some 3], [some 4, some 0], [none, some 1], [none, none]], rcosets := [[some 1, some 2], [some 0, some 3], [none, some 0], [none, some 1], [some 2, none]] }
      { names := ['a', 'b'], n_gens := 2, cosets := [[some 1, some 2], [some 0, some 3], [some 4, some 0], [none, some 1], [some 2, none]], rcosets := [[some 1, some 2], [some 0, some 3], [some 4, some 0], [none, some 1], [some 2, none]] }
      { names := ['a', 'b'], n_gens := 2, cosets := [[some 1, some 2], [some 0, some 3], [some 4, some 0], [some 5, some 1], [some 2, none], [none, none]], rcosets := [[some 1, some 2], [some 0, some 3], [some 4, some 0], [none, some 1], [some 2, none], [some 3, none]] }
      (by decide) (by decide) (by decide) (by decide)

/-- C7, amended: with two generators, no relators and no subgroup
generators, enumeration terminates immediately with a single (unsaturated)
one-coset table and never reaches any ceiling; the spec-modelled ceiling
itself is not vacuous: a presentation whose enumeration does grow without
bound (two involution generators, trivial subgroup) exceeds a small
ceiling (here 5) and fails with `TooManyCosets`. -/
theorem claim_C7 :
    resultLen (solveBounded 50 ['a', 'b'] [] [] 10) = some 1 ∧
    (resultTable (solveBounded 50 ['a', 'b'] [] [] 10)).map saturatedB = some false ∧
    solveBounded 5 ['a', 'b'] [] [['a', 'a'], ['b', 'b']] 10 = .error .tooManyCosets := by
  refine ⟨by decide, by decide, c7_growth⟩

/-! Cell-level behaviour of `Cosets.set` on the two lookup operations. -/

theorem get_set_eq (t : Cosets) (c g tgt : Nat)
    (hc : c < t.cosets.length) (hg : g < (t.cosets.getD c []).length) :
    (t.set c g tgt).get c g = some tgt := by
  simp only [Cosets.get, Cosets.set, upd2_eq_set]
  rw [lgetD_set_eq _ _ _ _ hc, lgetD_set_eq _ _ _ _ hg]

theorem get_set_ne (t : Cosets) (c g tgt c' g' : Nat) (h : c' ≠ c ∨ g' ≠ g) :
    (t.set c g tgt).get c' g' = t.get c' g' := by
  simp only [Cosets.get, Cosets.set, upd2_eq_set]
  rcases h with h | h
  · rw [lgetD_set_ne _ _ _ _ _ (fun he => h he.symm)]
  · by_cases hc : c' = c
    · subst hc
      by_cases hlt : c' < t.cosets.length
      · rw [lgetD_set_eq _ _ _ _ hlt, lgetD_set_ne _ _ _ _ _ (fun he => h he.symm)]
      · rw [lset_of_le _ _ _ (Nat.le_of_not_lt hlt)]
    · rw [lgetD_set_ne _ _ _ _ _ (fun he => hc he.symm)]

theorem rget_set_eq (t : Cosets) (c g tgt : Nat)
    (ht : tgt < t.rcosets.length) (hg : g < (t.rcosets.getD tgt []).length) :
    (t.set c g tgt).rget g tgt = some c := by
  simp only [Cosets.rget, Cosets.set, upd2_eq_set]
  rw [lgetD_set_eq _ _ _ _ ht, lgetD_set_eq _ _ _ _ hg]

theorem rget_set_ne (t : Cosets) (c g tgt d g' : Nat) (h : d ≠ tgt ∨ g' ≠ g) :
    (t.set c g tgt).rget g' d = t.rget g' d := by
  simp only [Cosets.rget, Cosets.set, upd2_eq_set]
  rcases h with h | h
  · rw [lgetD_set_ne _ _ _ _ _ (fun he => h he.symm)]
  · by_cases hd : d = tgt
    · subst hd
      by_cases hlt : d < t.rcosets.length
      · rw [lgetD_set_eq _ _ _ _ hlt, lgetD_set_ne _ _ _ _ _ (fun he => h he.symm)]
      · rw [lset_of_le _ _ _ (Nat.le_of_not_lt hlt)]
    · rw [lgetD_set_ne _ _ _ _ _ (fun he => hd he.symm)]

/-- A defined forward lookup pins the row index below the array length. -/
theorem get_some_lt (t : Cosets) (c g d : Nat) (h : t.get c g = some d) :
    c < t.cosets.length := by
  by_contra hge
  rw [Cosets.get, lgetD_of_le _ _ _ (Nat.le_of_not_lt hge)] at h
  cases h

/-- A defined reverse lookup pins the row index below the array length. -/
theorem rget_some_lt (t : Cosets) (g d c : Nat) (h : t.rget g d = some c) :
    d < t.rcosets.length := by
  by_contra hge
  rw [Cosets.rget, lgetD_of_le _ _ _ (Nat.le_of_not_lt hge)] at h
  cases h

/-! Specification of the row-major scan of `add_coset`. -/

theorem findNoneRow_spec (row : List (Option Nat)) (j : Nat)
    (h : findNoneRow row = some j) : j < row.length ∧ row.getD j none = none := by
  induction row generalizing j with
  | nil => simp [findNoneRow] at h
  | cons e xs ih =>
    cases e with
    | none =>
      simp only [findNoneRow, Option.some.injEq] at h
      subst h
      exact ⟨Nat.succ_pos _, rfl⟩
    | some v =>
      simp only [findNoneRow, Option.map_eq_some'] at h
      obtain ⟨j', hj', rfl⟩ := h
      obtain ⟨h1, h2⟩ := ih j' hj'
      exact ⟨Nat.succ_lt_succ h1, h2⟩

theorem findNone_spec (m : List (List (Option Nat))) (i j : Nat)
    (h : findNone m = some (i, j)) :
    i < m.length ∧ j < (m.getD i []).length ∧ (m.getD i []).getD j none = none := by
  induction m generalizing i j with
  | nil => simp [findNone] at h
  | cons row rest ih =>
    rw [findNone] at h
    rcases hr : findNoneRow row with _ | j'
    · rw [hr] at h
      simp only [Option.map_eq_some'] at h
      obtain ⟨⟨i', j''⟩, hp, hpair⟩ := h
      cases hpair
      obtain ⟨h1, h2, h3⟩ := ih i' j'' hp
      exact ⟨Nat.succ_lt_succ h1, h2, h3⟩
    · rw [hr] at h
      simp only [Option.some.injEq, Prod.mk.injEq] at h
      obtain ⟨hi, hj⟩ := h
      subst hi
      subst hj
      obtain ⟨h1, h2⟩ := findNoneRow_spec row j' hr
      exact ⟨Nat.succ_pos _, by simpa using h1, by simpa using h2⟩

/-! Preservation of the table symmetry invariant. -/

theorem symm_start (n : Nat) (names : List Char) : Symm (Cosets.start n names) := by
  intro c g d h
  exfalso
  have h' : ([List.replicate n (none : Option Nat)].getD c []).getD g none = some d := h
  cases c with
  | zero => rw [List.getD_cons_zero, lgetD_replicate] at h'; cases h'
  | succ c' => cases h'

theorem symm_set (t : Cosets) (c g tgt : Nat)
    (hsym : Symm t)
    (hc : c < t.cosets.length) (hgc : g < (t.cosets.getD c []).length)
    (ht : tgt < t.rcosets.length) (hgt : g < (t.rcosets.getD tgt []).length)
    (hfwd : t.get c g = none ∨ t.get c g = some tgt)
    (hrev : t.rget g tgt = none ∨ t.rget g tgt = some c) :
    Symm (t.set c g tgt) := by
  intro c' g' d h
  by_cases hcg : c' = c ∧ g' = g
  · obtain ⟨rfl, rfl⟩ := hcg
    rw [get_set_eq t c' g' tgt hc hgc] at h
    cases h
    exact rget_set_eq t c' g' tgt ht hgt
  · have hne : c' ≠ c ∨ g' ≠ g := by tauto
    rw [get_set_ne t c g tgt c' g' hne] at h
    by_cases hdg : d = tgt ∧ g' = g
    · obtain ⟨rfl, rfl⟩ := hdg
      have hcc : c' ≠ c := hne.resolve_right (fun hg => hg rfl)
      have hrc' := hsym c' g' d h
      rcases hrev with h0 | h0 <;> rw [hrc'] at h0
      · cases h0
      · cases h0
        exact absurd rfl hcc
    · have hne2 : d ≠ tgt ∨ g' ≠ g := by tauto
      rw [rget_set_ne t c g tgt d g' hne2]
      exact hsym c' g' d h

theorem symm_add_row (t : Cosets) (hsym : Symm t) : Symm t.add_row := by
  intro c g d h
  have hrow : (t.add_row).cosets = t.cosets ++ [List.replicate t.n_gens none] := rfl
  have hrrow : (t.add_row).rcosets = t.rcosets ++ [List.replicate t.n_gens none] := rfl
  rw [Cosets.get, hrow] at h
  rcases Nat.lt_or_ge c t.cosets.length with hlt | hge
  · rw [lgetD_append_lt _ _ _ _ hlt] at h
    have h2 := hsym c g d h
    have hd : d < t.rcosets.length := rget_some_lt t g d c h2
    rw [Cosets.rget, hrrow, lgetD_append_lt _ _ _ _ hd]
    exact h2
  · exfalso
    rcases Nat.eq_or_lt_of_le hge with heq | hgt
    · rw [← heq, lgetD_append_len, lgetD_replicate] at h
      cases h
    · have hlen : (t.cosets ++ [List.replicate t.n_gens (none : Option Nat)]).length ≤ c := by
        simp only [List.length_append, List.length_cons, List.length_nil, Nat.add_zero]
        exact hgt
      rw [lgetD_of_le _ _ _ hlen, lgetD_of_le _ _ _ (Nat.zero_le g)] at h
      cases h

theorem symm_add_coset (t t' : Cosets) (hsym : Symm t) (hwf : WF t)
    (h : t.add_coset = some t') : Symm t' := by
  rw [Cosets.add_coset] at h
  rcases hf : findNone t.cosets with _ | p
  · rw [hf] at h; cases h
  · rw [hf] at h
    obtain ⟨i, j⟩ := p
    simp only [Option.some.injEq] at h
    subst h
    obtain ⟨hi, hj, hnone⟩ := findNone_spec t.cosets i j hf
    obtain ⟨hlen, hwidth, hrwidth, -, -⟩ := hwf
    have hwj : j < t.n_gens := by
      rw [hwidth (t.cosets.getD i []) (lgetD_mem _ _ _ hi)] at hj
      exact hj
    refine symm_set t.add_row i j t.cosets.length (symm_add_row t hsym) ?_ ?_ ?_ ?_ ?_ ?_
    · show i < (t.cosets ++ [List.replicate t.n_gens none]).length
      simp only [List.length_append, List.length_cons, List.length_nil]
      exact Nat.lt_of_lt_of_le hi (Nat.le_add_right _ _)
    · show j < ((t.cosets ++ [List.replicate t.n_gens none]).getD i []).length
      rw [lgetD_append_lt _ _ _ _ hi]
      exact hj
    · show t.cosets.length < (t.rcosets ++ [List.replicate t.n_gens none]).length
      simp only [List.length_append, List.length_cons, List.length_nil, hlen]
      exact Nat.lt_succ_self _
    · show j < ((t.rcosets ++ [List.replicate t.n_gens none]).getD t.cosets.length []).length
      rw [← hlen, lgetD_append_len, List.length_replicate]
      exact hwj
    · left
      show (t.add_row).get i j = none
      rw [Cosets.get]
      have : (t.add_row).cosets = t.cosets ++ [List.replicate t.n_gens none] := rfl
      rw [this, lgetD_append_lt _ _ _ _ hi]
      exact hnone
    · left
      show (t.add_row).rget j t.cosets.length = none
      rw [Cosets.rget]
      have : (t.add_row).rcosets = t.rcosets ++ [List.replicate t.n_gens none] := rfl
      rw [this, ← hlen, lgetD_append_len, lgetD_replicate]

/-- The executable symmetry check holds of every table satisfying the
symmetry proposition. -/
theorem symmetricB_of_symm (t : Cosets) (hsym : Symm t) : symmetricB t = true := by
  rw [symmetricB]
  rw [List.all_eq_true]
  intro c hc
  rw [List.all_eq_true]
  intro g hg
  rcases hget : t.get c g with _ | d
  · simp
  · simp [hsym c g d hget]

/-- C3, counterexample to the claim as stated: the presentation with
relators `bb`, `abb` over `{a, b}` and trivial subgroup forces a
coincidence; the unconditional overwrite of `set` leaves the finished
table with `forward[0][0] = 1` but `reverse[1][0] = 1`, so the symmetry
invariant does not hold at every point of every enumeration. -/
theorem claim_C3_counterexample :
    (resultTable (solve ['a', 'b'] [] [['b', 'b'], ['a', 'b', 'b']] 4)).map symmetricB =
      some false := by
  decide

/-- C3, amended: the table symmetry invariant holds of the initial table
and is preserved by `add_row`, by `add_coset`, and by every in-range
`set` call that does not overwrite an already-defined forward or reverse
entry with a different value — hence it holds at every point of a
coincidence-free run; a `set` that does overwrite (a coincidence,
silently accepted by the code) can break it, as the counterexample run
shows.  The final conjunct ties the proposition to the executable
check. -/
theorem claim_C3 :
    (∀ (n : Nat) (names : List Char), Symm (Cosets.start n names)) ∧
    (∀ (t : Cosets) (c g tgt : Nat), Symm t →
      c < t.cosets.length → g < (t.cosets.getD c []).length →
      tgt < t.rcosets.length → g < (t.rcosets.getD tgt []).length →
      (t.get c g = none ∨ t.get c g = some tgt) →
      (t.rget g tgt = none ∨ t.rget g tgt = some c) →
      Symm (t.set c g tgt)) ∧
    (∀ t : Cosets, Symm t → Symm t.add_row) ∧
    (∀ t t' : Cosets, Symm t → WF t → t.add_coset = some t' → Symm t') ∧
    (∀ t : Cosets, Symm t → symmetricB t = true) :=
  ⟨symm_start,
   fun t c g tgt hs hc hgc ht hgt hf hr => symm_set t c g tgt hs hc hgc ht hgt hf hr,
   symm_add_row,
   fun t t' hs hw h => symm_add_coset t t' hs hw h,
   symmetricB_of_symm⟩

/-- C3, witness for the amended claim: a concrete non-overwriting `set`
on the initial one-generator table keeps the table symmetric. -/
theorem claim_C3_witness : Symm ((Cosets.start 1 ['a']).set 0 0 0) :=
  claim_C3.2.1 (Cosets.start 1 ['a']) 0 0 0 (claim_C3.1 1 ['a'])
    (by decide) (by decide) (by decide) (by decide)
    (Or.inl (by decide)) (Or.inl (by decide))

/-- C4: the contract of `Row.learn`.  A window that is already a single
step returns no progress with the row and table untouched; otherwise the
left end advances through defined forward lookups and then the right end
through defined reverse lookups, and the call returns learned exactly
when the window has narrowed to a single step, in which case the table
changes by exactly the one write
`set(left_coset, relator[left], right_target)`; in every other case the
table is unchanged. -/
theorem claim_C4 (r : Row) (t : Cosets) :
    (r.left + 1 = r.right → r.learn t = (r, t, false)) ∧
    (r.left + 1 ≠ r.right →
      ((advanceRight (advanceLeft r t) t).left + 1 = (advanceRight (advanceLeft r t) t).right →
        r.learn t = (advanceRight (advanceLeft r t) t,
          t.set (advanceRight (advanceLeft r t) t).left_coset
            ((advanceRight (advanceLeft r t) t).rel.getD (advanceRight (advanceLeft r t) t).left 0)
            (advanceRight (advanceLeft r t) t).right_target, true)) ∧
      ((advanceRight (advanceLeft r t) t).left + 1 ≠ (advanceRight (advanceLeft r t) t).right →
        r.learn t = (advanceRight (advanceLeft r t) t, t, false))) := by
  refine ⟨fun h => ?_, fun h => ⟨fun h2 => ?_, fun h2 => ?_⟩⟩
  · rw [Row.learn, if_pos h]
  · simp only [Row.learn, if_neg h, if_pos h2]
  · simp only [Row.learn, if_neg h, if_neg h2]

/-- C4, witness: both branches of the contract at concrete inputs — a
single-step window reports no progress and leaves the table alone, and a
row over `aa` anchored at a table with `forward[0][0] = 0` narrows to a
single step and writes it. -/
theorem claim_C4_witness :
    Row.learn ⟨[0], 0, 1, 0, 0⟩ (Cosets.start 1 ['a']) =
      (⟨[0], 0, 1, 0, 0⟩, Cosets.start 1 ['a'], false) ∧
    Row.learn ⟨[0, 0], 0, 2, 0, 0⟩ ((Cosets.start 1 ['a']).set 0 0 0) =
      (advanceRight (advanceLeft ⟨[0, 0], 0, 2, 0, 0⟩ ((Cosets.start 1 ['a']).set 0 0 0))
          ((Cosets.start 1 ['a']).set 0 0 0),
        ((Cosets.start 1 ['a']).set 0 0 0).set
          (advanceRight (advanceLeft ⟨[0, 0], 0, 2, 0, 0⟩ ((Cosets.start 1 ['a']).set 0 0 0))
              ((Cosets.start 1 ['a']).set 0 0 0)).left_coset
          ((advanceRight (advanceLeft ⟨[0, 0], 0, 2, 0, 0⟩ ((Cosets.start 1 ['a']).set 0 0 0))
              ((Cosets.start 1 ['a']).set 0 0 0)).rel.getD
            (advanceRight (advanceLeft ⟨[0, 0], 0, 2, 0, 0⟩ ((Cosets.start 1 ['a']).set 0 0 0))
              ((Cosets.start 1 ['a']).set 0 0 0)).left 0)
          (advanceRight (advanceLeft ⟨[0, 0], 0, 2, 0, 0⟩ ((Cosets.start 1 ['a']).set 0 0 0))
              ((Cosets.start 1 ['a']).set 0 0 0)).right_target, true) :=
  ⟨(claim_C4 ⟨[0], 0, 1, 0, 0⟩ (Cosets.start 1 ['a'])).1 rfl,
   ((claim_C4 ⟨[0, 0], 0, 2, 0, 0⟩ ((Cosets.start 1 ['a']).set 0 0 0)).2 (by decide)).1
     (by decide)⟩

theorem lcontains_iff (l : List Char) (a : Char) : l.contains a = true ↔ a ∈ l := by
  induction l with
  | nil => simp
  | cons x xs ih => simp

/-- The executable pair-membership test of `coxeter` agrees with the
spec-worded proposition. -/
theorem pairGiven_iff (rels : List (List Char)) (g h : Char) :
    pairGiven rels g h = true ↔ givenRelator rels g h := by
  rw [pairGiven, givenRelator]
  simp only [List.any_eq_true, Bool.and_eq_true, List.all_eq_true, Bool.or_eq_true,
    beq_iff_eq, lcontains_iff]
  constructor
  · rintro ⟨rel, hrel, ⟨hg, hh⟩, hall⟩
    exact ⟨rel, hrel, hg, hh, hall⟩
  · rintro ⟨rel, hrel, hg, hh, hall⟩
    exact ⟨rel, hrel, ⟨hg, hh⟩, hall⟩

/-- The relator extension of `coxeter` coincides with the extension
described by the spec's words. -/
theorem extendRels_eq_spec (gens : List Char) (rels : List (List Char)) :
    extendRels gens rels = specExtendRels gens rels := by
  rw [extendRels, specExtendRels]
  congr 2
  congr 1
  apply List.filter_congr
  intro p _
  rcases hb : pairGiven rels p.1 p.2 with _ | _
  · have hng : ¬ givenRelator rels p.1 p.2 := fun hg => by
      rw [(pairGiven_iff rels p.1 p.2).mpr hg] at hb
      cases hb
    simp [hng]
  · have hg := (pairGiven_iff rels p.1 p.2).mp hb
    simp [hg]

/-- C5: `coxeter` returns exactly what `solve` returns on the relator
list extended as the spec describes — the given relators, a commuting
relator for every unordered generator pair not already given a relator,
and an order-2 relator for every generator. -/
theorem claim_C5 (gens subgens : List Char) (rels : List (List Char)) (fuel : Nat) :
    coxeter gens subgens rels fuel = solve gens subgens (specExtendRels gens rels) fuel := by
  rw [coxeter, extendRels_eq_spec]

theorem symIndex_none_iff (gens : List Char) (g : Char) :
    symIndex gens g = none ↔ g ∉ gens := by
  induction gens with
  | nil => simp [symIndex]
  | cons x xs ih =>
    by_cases hx : x = g
    · subst hx
      simp [symIndex]
    · simp only [symIndex, if_neg hx, Option.map_eq_none', List.mem_cons, not_or]
      rw [ih]
      constructor
      · intro h
        exact ⟨fun he => hx he.symm, h⟩
      · intro h
        exact h.2

theorem mapM_none_of_mem {α β : Type} (f : α → Option β) (l : List α) (x : α)
    (hx : x ∈ l) (hf : f x = none) : l.mapM f = none := by
  induction l with
  | nil => cases hx
  | cons y ys ih =>
    rcases List.mem_cons.mp hx with rfl | hx'
    · rw [List.mapM_cons, hf]
      rfl
    · rw [List.mapM_cons, ih hx']
      cases f y <;> rfl

/-- C6: `solve` fails with the invalid-presentation error whenever some
relator or subgroup-generator symbol is absent from the alphabet, and
`schlafli` fails with it whenever the generator count is not one more
than the coefficient count; both checks run before any table state is
built (the symbol translation precedes the `Cosets` construction, and the
length assertion precedes the relator construction), and the failure
carries no table. -/
theorem claim_C6 :
    (∀ (gens subgens : List Char) (rels : List (List Char)) (fuel : Nat),
      ((∃ rel ∈ rels, ∃ g ∈ rel, g ∉ gens) ∨ (∃ g ∈ subgens, g ∉ gens)) →
      solve gens subgens rels fuel = .error .invalidPresentation) ∧
    (∀ (gens subgens : List Char) (coeffs : List Nat) (fuel : Nat),
      gens.length ≠ coeffs.length + 1 →
      schlafli gens subgens coeffs fuel = .error .invalidPresentation) := by
  constructor
  · intro gens subgens rels fuel h
    rcases h with ⟨rel, hrel, g, hg, hgens⟩ | ⟨g, hg, hgens⟩
    · have hnone : rels.mapM (List.mapM (symIndex gens)) = none :=
        mapM_none_of_mem _ _ rel hrel
          (mapM_none_of_mem _ _ g hg ((symIndex_none_iff gens g).mpr hgens))
      rw [solve, hnone]
    · have hnone : subgens.mapM (symIndex gens) = none :=
        mapM_none_of_mem _ _ g hg ((symIndex_none_iff gens g).mpr hgens)
      rw [solve]
      rcases h1 : rels.mapM (List.mapM (symIndex gens)) with _ | relsI
      · rfl
      · rw [hnone]
  · intro gens subgens coeffs fuel h
    rw [schlafli, if_neg h]

/-- C6, witness: a relator symbol outside the alphabet and a wrong-length
Schlafli symbol both fail at concrete inputs. -/
theorem claim_C6_witness :
    solve ['a'] [] [['b']] 1 = .error .invalidPresentation ∧
    schlafli ['a', 'b'] [] [] 1 = .error .invalidPresentation :=
  ⟨claim_C6.1 ['a'] [] [['b']] 1 (Or.inl (by decide)),
   claim_C6.2 ['a', 'b'] [] [] 1 (by decide)⟩

/-! Word reconstruction: the breadth-first traversal keeps only words that
replay, from coset 0, to the coset they are recorded for. -/

theorem foldlM_get_snoc (t : Cosets) (g : Nat) :
    ∀ (w : List Nat) (s : Nat),
      List.foldlM (fun c g => t.get c g) s (w ++ [g]) =
        (List.foldlM (fun c g => t.get c g) s w).bind (fun c => t.get c g) := by
  intro w
  induction w with
  | nil =>
    intro s
    simp [List.foldlM_cons, List.foldlM_nil]
  | cons x xs ih =>
    intro s
    simp only [List.cons_append, List.foldlM_cons]
    cases t.get s x with
    | none => rfl
    | some s' => simp [ih s']

theorem replay_append (t : Cosets) (w : List Nat) (g : Nat) :
    replayWord t (w ++ [g]) =
      (replayWord t w).bind (fun c => t.get c g) := by
  rw [replayWord, replayWord]
  exact foldlM_get_snoc t g w 0

theorem bfsStep_inv (t : Cosets) (c : Nat) (wc : List Nat)
    (hwc : replayWord t wc = some c) (st : List (Option (List Nat)) × List Nat)
    (g : Nat)
    (hst : ∀ d w, st.1.getD d none = some w → replayWord t w = some d) :
    ∀ d w, (bfsStep t c wc st g).1.getD d none = some w → replayWord t w = some d := by
  rw [bfsStep]
  rcases hg : t.get c g with _ | d0
  · exact hst
  · dsimp only
    by_cases hdv : (st.1.getD d0 none).isNone = true
    · rw [if_pos hdv]
      intro d' w' h'
      by_cases hd : d' = d0
      · subst hd
        by_cases hlt : d' < st.1.length
        · rw [lgetD_set_eq _ _ _ _ hlt] at h'
          cases h'
          rw [replay_append, hwc]
          exact hg
        · rw [lset_of_le _ _ _ (Nat.le_of_not_lt hlt)] at h'
          exact hst d' w' h'
      · rw [lgetD_set_ne _ _ _ _ _ (fun he => hd he.symm)] at h'
        exact hst d' w' h'
    · rw [if_neg hdv]
      exact hst

theorem bfsExpand_inv (t : Cosets) (c : Nat) (wc : List Nat)
    (hwc : replayWord t wc = some c) (st : List (Option (List Nat)) × List Nat)
    (hst : ∀ d w, st.1.getD d none = some w → replayWord t w = some d) :
    ∀ d w, (bfsExpand t c wc st).1.getD d none = some w → replayWord t w = some d := by
  rw [bfsExpand]
  generalize List.range t.n_gens = l
  induction l generalizing st with
  | nil => exact hst
  | cons g gs ih =>
    rw [List.foldl_cons]
    exact ih (bfsStep t c wc st g) (bfsStep_inv t c wc hwc st g hst)

theorem bfsLoop_inv (t : Cosets) :
    ∀ (fuel : Nat) (q : List Nat) (ws : List (Option (List Nat))),
      (∀ d w, ws.getD d none = some w → replayWord t w = some d) →
      ∀ d w, (bfsLoop t fuel q ws).getD d none = some w → replayWord t w = some d := by
  intro fuel
  induction fuel with
  | zero => intro q ws hws; exact hws
  | succ f ih =>
    intro q ws hws
    match q with
    | [] => exact hws
    | c :: q' =>
      rw [bfsLoop]
      rcases hc : ws.getD c none with _ | wc
      · exact ih q' ws hws
      · exact ih _ _ (bfsExpand_inv t c wc (hws c wc hc) (ws, q') hws)

/-- The initial word array records only the empty word, at coset 0. -/
theorem bfsWords_init_inv (t : Cosets) :
    ∀ d w, (((List.replicate t.cosets.length (none : Option (List Nat))).set 0
        (some [])).getD d none) = some w → replayWord t w = some d := by
  intro d' w' h'
  by_cases hd : d' = 0
  · subst hd
    by_cases hlt : 0 < t.cosets.length
    · rw [lgetD_set_eq _ _ _ _ (by simpa using hlt)] at h'
      cases h'
      rfl
    · rw [lset_of_le _ _ _ (by simpa using Nat.le_of_not_lt hlt), lgetD_replicate] at h'
      cases h'
  · rw [lgetD_set_ne _ _ _ _ _ (fun he => hd he.symm), lgetD_replicate] at h'
    cases h'

/-- Replaying a word from coset 0 only ever lands on cosets reachable
from coset 0, so a representative word can exist only for reachable
cosets. -/
theorem replay_some_reach (t : Cosets) :
    ∀ (w : List Nat) (s c : Nat), Reach t s →
      List.foldlM (fun c g => t.get c g) s w = some c → Reach t c := by
  intro w
  induction w with
  | nil =>
    intro s c hs h
    rw [List.foldlM_nil] at h
    cases h
    exact hs
  | cons g gs ih =>
    intro s c hs h
    rw [List.foldlM_cons] at h
    rcases hg : t.get s g with _ | s' <;> rw [hg] at h
    · cases h
    · exact ih s' c (Reach.step hs hg) h

/-! Bounds invariant: the table stays well formed through every operation
of the enumeration, so every table access of the run is in range. -/

theorem lgetD_lt_of_ne {α : Type} (l : List α) (i : Nat) (d : α) (h : l.getD i d ≠ d) :
    i < l.length := by
  by_contra hge
  exact h (lgetD_of_le l i d (Nat.le_of_not_lt hge))

theorem upd2_mem (m : List (List (Option Nat))) (i j : Nat) (v : Option Nat)
    (row : List (Option Nat)) (h : row ∈ upd2 m i j v) :
    row ∈ m ∨ ∃ row' ∈ m, row = row'.set j v := by
  rw [upd2_eq_set] at h
  by_cases hi : i < m.length
  · rcases List.mem_or_eq_of_mem_set h with h' | h'
    · exact Or.inl h'
    · exact Or.inr ⟨m.getD i [], lgetD_mem _ _ _ hi, h'⟩
  · rw [lset_of_le _ _ _ (Nat.le_of_not_lt hi)] at h
    exact Or.inl h

theorem wf_start (n : Nat) (names : List Char) : WF (Cosets.start n names) := by
  refine ⟨rfl, ?_, ?_, ?_, ?_⟩
  · intro row hrow
    obtain rfl := List.mem_singleton.mp hrow
    exact List.length_replicate n none
  · intro row hrow
    obtain rfl := List.mem_singleton.mp hrow
    exact List.length_replicate n none
  · intro row hrow e he v hv
    obtain rfl := List.mem_singleton.mp hrow
    rw [List.eq_of_mem_replicate he] at hv
    cases hv
  · intro row hrow e he v hv
    obtain rfl := List.mem_singleton.mp hrow
    rw [List.eq_of_mem_replicate he] at hv
    cases hv

theorem set_cosets_length (t : Cosets) (c g tgt : Nat) :
    (t.set c g tgt).cosets.length = t.cosets.length := by
  simp [Cosets.set, upd2_eq_set]

theorem set_rcosets_length (t : Cosets) (c g tgt : Nat) :
    (t.set c g tgt).rcosets.length = t.rcosets.length := by
  simp [Cosets.set, upd2_eq_set]

theorem wf_set (t : Cosets) (c g tgt : Nat) (hwf : WF t)
    (hc : c < t.cosets.length) (htgt : tgt < t.cosets.length) :
    WF (t.set c g tgt) := by
  obtain ⟨hlen, hw1, hw2, he1, he2⟩ := hwf
  refine ⟨?_, ?_, ?_, ?_, ?_⟩
  · rw [set_cosets_length, set_rcosets_length]
    exact hlen
  · intro row hrow
    have hrow' : row ∈ upd2 t.cosets c g (some tgt) := hrow
    rcases upd2_mem _ _ _ _ _ hrow' with h' | ⟨row', hm, rfl⟩
    · exact hw1 row h'
    · show (row'.set g (some tgt)).length = t.n_gens
      rw [List.length_set]
      exact hw1 row' hm
  · intro row hrow
    have hrow' : row ∈ upd2 t.rcosets tgt g (some c) := hrow
    rcases upd2_mem _ _ _ _ _ hrow' with h' | ⟨row', hm, rfl⟩
    · exact hw2 row h'
    · show (row'.set g (some c)).length = t.n_gens
      rw [List.length_set]
      exact hw2 row' hm
  · intro row hrow e he
    rw [set_cosets_length]
    have hrow' : row ∈ upd2 t.cosets c g (some tgt) := hrow
    rcases upd2_mem _ _ _ _ _ hrow' with h' | ⟨row', hm, rfl⟩
    · exact he1 row h' e he
    · rcases List.mem_or_eq_of_mem_set he with he' | rfl
      · exact he1 row' hm e he'
      · intro v hv
        cases hv
        exact htgt
  · intro row hrow e he
    rw [set_cosets_length]
    have hrow' : row ∈ upd2 t.rcosets tgt g (some c) := hrow
    rcases upd2_mem _ _ _ _ _ hrow' with h' | ⟨row', hm, rfl⟩
    · exact he2 row h' e he
    · rcases List.mem_or_eq_of_mem_set he with he' | rfl
      · exact he2 row' hm e he'
      · intro v hv
        cases hv
        exact hc

theorem add_row_cosets_length (t : Cosets) :
    t.add_row.cosets.length = t.cosets.length + 1 := by
  simp [Cosets.add_row]

theorem add_row_rcosets_length (t : Cosets) :
    t.add_row.rcosets.length = t.rcosets.length + 1 := by
  simp [Cosets.add_row]

theorem wf_add_row (t : Cosets) (hwf : WF t) : WF t.add_row := by
  obtain ⟨hlen, hw1, hw2, he1, he2⟩ := hwf
  have hc : t.add_row.cosets = t.cosets ++ [List.replicate t.n_gens none] := rfl
  have hr : t.add_row.rcosets = t.rcosets ++ [List.replicate t.n_gens none] := rfl
  refine ⟨?_, ?_, ?_, ?_, ?_⟩
  · rw [add_row_cosets_length, add_row_rcosets_length, hlen]
  · intro row hrow
    rw [hc] at hrow
    rcases List.mem_append.mp hrow with h' | h'
    · exact hw1 row h'
    · obtain rfl := List.mem_singleton.mp h'
      exact List.length_replicate _ _
  · intro row hrow
    rw [hr] at hrow
    rcases List.mem_append.mp hrow with h' | h'
    · exact hw2 row h'
    · obtain rfl := List.mem_singleton.mp h'
      exact List.length_replicate _ _
  · intro row hrow e he v hv
    rw [add_row_cosets_length]
    rw [hc] at hrow
    rcases List.mem_append.mp hrow with h' | h'
    · exact Nat.lt_succ_of_lt (he1 row h' e he v hv)
    · obtain rfl := List.mem_singleton.mp h'
      rw [List.eq_of_mem_replicate he] at hv
      cases hv
  · intro row hrow e he v hv
    rw [add_row_cosets_length]
    rw [hr] at hrow
    rcases List.mem_append.mp hrow with h' | h'
    · exact Nat.lt_succ_of_lt (he2 row h' e he v hv)
    · obtain rfl := List.mem_singleton.mp h'
      rw [List.eq_of_mem_replicate he] at hv
      cases hv

theorem add_coset_n_gens (t t' : Cosets) (h : t.add_coset = some t') :
    t'.n_gens = t.n_gens := by
  rw [Cosets.add_coset] at h
  rcases hf : findNone t.cosets with _ | ⟨i, j⟩ <;> rw [hf] at h
  · cases h
  · simp only [Option.some.injEq] at h
    subst h
    rfl

theorem wf_add_coset (t t' : Cosets) (hwf : WF t) (h : t.add_coset = some t') :
    WF t' ∧ t'.cosets.length = t.cosets.length + 1 := by
  rw [Cosets.add_coset] at h
  rcases hf : findNone t.cosets with _ | ⟨i, j⟩ <;> rw [hf] at h
  · cases h
  · simp only [Option.some.injEq] at h
    subst h
    obtain ⟨hi, hj, hnone⟩ := findNone_spec t.cosets i j hf
    have hwfr := wf_add_row t hwf
    have hlt : i < t.add_row.cosets.length := by
      rw [add_row_cosets_length]
      omega
    have htgt : t.cosets.length < t.add_row.cosets.length := by
      rw [add_row_cosets_length]
      omega
    refine ⟨wf_set _ _ _ _ hwfr hlt htgt, ?_⟩
    rw [set_cosets_length, add_row_cosets_length]

theorem get_lt_of_wf (t : Cosets) (hwf : WF t) (c g d : Nat)
    (h : t.get c g = some d) : d < t.cosets.length := by
  obtain ⟨-, -, -, he1, -⟩ := hwf
  have hc : c < t.cosets.length := get_some_lt t c g d h
  have hrow : t.cosets.getD c [] ∈ t.cosets := lgetD_mem _ _ _ hc
  have hmem : (t.cosets.getD c []).getD g none ∈ t.cosets.getD c [] := by
    apply lgetD_ne_mem
    rw [show (t.cosets.getD c []).getD g none = some d from h]
    simp
  rw [show (t.cosets.getD c []).getD g none = some d from h] at hmem
  exact he1 _ hrow _ hmem d rfl

theorem rget_lt_of_wf (t : Cosets) (hwf : WF t) (g d c : Nat)
    (h : t.rget g d = some c) : c < t.cosets.length := by
  obtain ⟨-, -, -, -, he2⟩ := hwf
  have hd : d < t.rcosets.length := rget_some_lt t g d c h
  have hrow : t.rcosets.getD d [] ∈ t.rcosets := lgetD_mem _ _ _ hd
  have hmem : (t.rcosets.getD d []).getD g none ∈ t.rcosets.getD d [] := by
    apply lgetD_ne_mem
    rw [show (t.rcosets.getD d []).getD g none = some c from h]
    simp
  rw [show (t.rcosets.getD d []).getD g none = some c from h] at hmem
  exact he2 _ hrow _ hmem c rfl

theorem advLeftAux_rowWF (t : Cosets) (hwf : WF t) :
    ∀ (fuel : Nat) (r : Row), RowWF t.cosets.length t.n_gens r →
      RowWF t.cosets.length t.n_gens (advLeftAux t fuel r) := by
  intro fuel
  induction fuel with
  | zero => intro r h; exact h
  | succ f ih =>
    intro r h
    rw [advLeftAux]
    by_cases hlr : r.left + 1 < r.right
    · rw [if_pos hlr]
      rcases hg : t.get r.left_coset (r.rel.getD r.left 0) with _ | d
      · exact h
      · apply ih
        obtain ⟨h1, h2, h3, h4, h5⟩ := h
        exact ⟨h1, get_lt_of_wf t hwf _ _ _ hg, h3,
          by show r.left + 1 ≤ r.right; omega, h5⟩
    · rw [if_neg hlr]
      exact h

theorem advRightAux_rowWF (t : Cosets) (hwf : WF t) :
    ∀ (fuel : Nat) (r : Row), RowWF t.cosets.length t.n_gens r →
      RowWF t.cosets.length t.n_gens (advRightAux t fuel r) := by
  intro fuel
  induction fuel with
  | zero => intro r h; exact h
  | succ f ih =>
    intro r h
    rw [advRightAux]
    by_cases hlr : r.left + 1 < r.right
    · rw [if_pos hlr]
      rcases hg : t.rget (r.rel.getD (r.right - 1) 0) r.right_target with _ | c
      · exact h
      · apply ih
        obtain ⟨h1, h2, h3, h4, h5⟩ := h
        exact ⟨h1, h2, rget_lt_of_wf t hwf _ _ _ hg,
          by show r.left ≤ r.right - 1; omega,
          by show r.right - 1 ≤ r.rel.length; omega⟩
    · rw [if_neg hlr]
      exact h

theorem learn_wf (t : Cosets) (r : Row) (hwf : WF t)
    (hr : RowWF t.cosets.length t.n_gens r) :
    WF (r.learn t).2.1 ∧ RowWF t.cosets.length t.n_gens (r.learn t).1 ∧
    (r.learn t).2.1.cosets.length = t.cosets.length ∧
    (r.learn t).2.1.n_gens = t.n_gens := by
  have hmwf : RowWF t.cosets.length t.n_gens (advanceRight (advanceLeft r t) t) := by
    rw [advanceRight]
    apply advRightAux_rowWF t hwf
    rw [advanceLeft]
    exact advLeftAux_rowWF t hwf _ r hr
  by_cases h0 : r.left + 1 = r.right
  · have hres : r.learn t = (r, t, false) := by
      rw [Row.learn, if_pos h0]
    rw [hres]
    exact ⟨hwf, hr, rfl, rfl⟩
  · by_cases h1 : (advanceRight (advanceLeft r t) t).left + 1 =
        (advanceRight (advanceLeft r t) t).right
    · have hres : r.learn t = (advanceRight (advanceLeft r t) t,
          t.set (advanceRight (advanceLeft r t) t).left_coset
            ((advanceRight (advanceLeft r t) t).rel.getD
              (advanceRight (advanceLeft r t) t).left 0)
            (advanceRight (advanceLeft r t) t).right_target, true) := by
        rw [Row.learn, if_neg h0]
        exact if_pos h1
      rw [hres]
      exact ⟨wf_set t _ _ _ hwf hmwf.2.1 hmwf.2.2.1, hmwf,
        set_cosets_length t _ _ _, rfl⟩
    · have hres : r.learn t = (advanceRight (advanceLeft r t) t, t, false) := by
        rw [Row.learn, if_neg h0]
        exact if_neg h1
      rw [hres]
      exact ⟨hwf, hmwf, rfl, rfl⟩

theorem learnPass_wf (t : Cosets) (rows : List Row) (hwf : WF t)
    (hr : ∀ r ∈ rows, RowWF t.cosets.length t.n_gens r) :
    WF (learnPass rows t).2.1 ∧
    (∀ r' ∈ (learnPass rows t).1, RowWF t.cosets.length t.n_gens r') ∧
    (learnPass rows t).2.1.cosets.length = t.cosets.length ∧
    (learnPass rows t).2.1.n_gens = t.n_gens := by
  induction rows with
  | nil =>
    exact ⟨hwf, fun r' h' => absurd h' (List.not_mem_nil r'), rfl, rfl⟩
  | cons r rs ih =>
    obtain ⟨ihw, ihr, ihl, ihn⟩ := ih (fun r' h' => hr r' (List.mem_cons_of_mem r h'))
    rcases hrec : learnPass rs t with ⟨rs', tmid, fl⟩
    rw [hrec] at ihw ihr ihl ihn
    have hrW : RowWF tmid.cosets.length tmid.n_gens r := by
      show RowWF ((rs', tmid, fl).2.1).cosets.length ((rs', tmid, fl).2.1).n_gens r
      rw [ihl, ihn]
      exact hr r (List.mem_cons_self r rs)
    have hlw := learn_wf tmid r ihw hrW
    rcases hL : r.learn tmid with ⟨r2, t2, b2⟩
    rw [hL] at hlw
    obtain ⟨hw2, hrw2, hl2, hn2⟩ := hlw
    have hres : learnPass (r :: rs) t =
        if b2 then (rs', t2, true) else (r2 :: rs', t2, fl) := by
      rw [learnPass, hrec]
      simp only
      rw [hL]
    cases b2
    · rw [hres]
      simp only [if_false, Bool.false_eq_true]
      refine ⟨hw2, ?_, hl2.trans ihl, hn2.trans ihn⟩
      intro r' h'
      rcases List.mem_cons.mp h' with rfl | h''
      · have := hrw2
        rw [ihl, ihn] at this
        exact this
      · exact ihr r' h''
    · rw [hres]
      simp only [if_true]
      refine ⟨hw2, ?_, hl2.trans ihl, hn2.trans ihn⟩
      intro r' h'
      exact ihr r' h'

theorem innerAux_wf :
    ∀ (fuel : Nat) (rows : List Row) (t : Cosets), WF t →
      (∀ r ∈ rows, RowWF t.cosets.length t.n_gens r) →
      WF (innerAux fuel rows t).2 ∧
      (∀ r ∈ (innerAux fuel rows t).1, RowWF t.cosets.length t.n_gens r) ∧
      (innerAux fuel rows t).2.cosets.length = t.cosets.length ∧
      (innerAux fuel rows t).2.n_gens = t.n_gens := by
  intro fuel
  induction fuel with
  | zero => intro rows t hwf hr; exact ⟨hwf, hr, rfl, rfl⟩
  | succ f ih =>
    intro rows t hwf hr
    rw [innerAux]
    rcases hlp : learnPass rows t with ⟨rows', t', fl⟩
    have hw := learnPass_wf t rows hwf hr
    rw [hlp] at hw
    obtain ⟨hw1, hw2, hw3, hw4⟩ := hw
    cases fl
    · exact ⟨hw1, hw2, hw3, hw4⟩
    · have hrows' : ∀ r ∈ rows', RowWF t'.cosets.length t'.n_gens r := by
        intro r h'
        rw [hw3, hw4]
        exact hw2 r h'
      obtain ⟨a, b, c, d⟩ := ih rows' t' hw1 hrows'
      refine ⟨a, ?_, c.trans hw3, d.trans hw4⟩
      intro r h'
      have := b r h'
      rwa [hw3, hw4] at this

theorem rowWF_mono (k k' n : Nat) (r : Row) (hk : k ≤ k')
    (h : RowWF k n r) : RowWF k' n r :=
  ⟨h.1, Nat.lt_of_lt_of_le h.2.1 hk, Nat.lt_of_lt_of_le h.2.2.1 hk,
   h.2.2.2.1, h.2.2.2.2⟩

theorem solveLoop_wf (rels : List (List Nat)) :
    ∀ (fuel : Nat) (rows : List Row) (t t' : Cosets),
      WF t → (∀ r ∈ rows, RowWF t.cosets.length t.n_gens r) →
      (∀ rel ∈ rels, ∀ g ∈ rel, g < t.n_gens) →
      solveLoop rels fuel rows t = .ok t' → WF t' := by
  intro fuel
  induction fuel with
  | zero =>
    intro rows t t' hwf hrows hrels h
    rw [solveLoop] at h
    by_cases he : rows.isEmpty
    · rw [if_pos he] at h
      simp only [Except.ok.injEq] at h
      subst h
      exact hwf
    · rw [if_neg he] at h
      cases h
  | succ f ih =>
    intro rows t t' hwf hrows hrels h
    rw [solveLoop] at h
    by_cases he : rows.isEmpty
    · rw [if_pos he] at h
      simp only [Except.ok.injEq] at h
      subst h
      exact hwf
    · rw [if_neg he] at h
      rcases hInner : innerLoop rows t with ⟨rows2, t2⟩
      rw [hInner] at h
      simp only at h
      have hIW := innerAux_wf (rows.length + 1) rows t hwf hrows
      rw [show innerAux (rows.length + 1) rows t = (rows2, t2) from hInner] at hIW
      obtain ⟨hw2, hr2, hl2, hn2⟩ := hIW
      rcases hadd : t2.add_coset with _ | t3 <;> rw [hadd] at h
      · simp only [Except.ok.injEq] at h
        subst h
        exact hw2
      · simp only at h
        obtain ⟨hw3, hl3⟩ := wf_add_coset t2 t3 hw2 hadd
        have hn3 := add_coset_n_gens t2 t3 hadd
        refine ih _ t3 t' hw3 ?_ ?_ h
        · intro r hrm
          rcases List.mem_append.mp hrm with hmem | hmem
          · have hx := hr2 r hmem
            rw [← hl2, ← hn2] at hx
            rw [hn3]
            exact rowWF_mono t2.cosets.length t3.cosets.length t2.n_gens r
              (by rw [hl3]; omega) hx
          · obtain ⟨rel, hrel, rfl⟩ := List.mem_map.mp hmem
            refine ⟨?_, ?_, ?_, Nat.zero_le _, Nat.le_refl _⟩
            · intro g hg
              rw [hn3, hn2]
              exact hrels rel hrel g hg
            · show t2.cosets.length < t3.cosets.length
              rw [hl3]
              omega
            · show t2.cosets.length < t3.cosets.length
              rw [hl3]
              omega
        · intro rel hrel g hg
          rw [hn3, hn2]
          exact hrels rel hrel g hg

theorem symIndex_lt (gens : List Char) (g : Char) (i : Nat)
    (h : symIndex gens g = some i) : i < gens.length := by
  induction gens generalizing i with
  | nil => cases h
  | cons x xs ih =>
    rw [symIndex] at h
    by_cases hx : x = g
    · rw [if_pos hx] at h
      cases h
      simp
    · rw [if_neg hx, Option.map_eq_some'] at h
      obtain ⟨i', hi', rfl⟩ := h
      have := ih i' hi'
      simp only [List.length_cons]
      omega

theorem mapM_some_mem {α β : Type} (f : α → Option β) :
    ∀ (l : List α) (l' : List β), l.mapM f = some l' →
      ∀ y ∈ l', ∃ x ∈ l, f x = some y := by
  intro l
  induction l with
  | nil =>
    intro l' h y hy
    simp only [List.mapM_nil, Option.pure_def, Option.some.injEq] at h
    subst h
    cases hy
  | cons a as ih =>
    intro l' h y hy
    rw [List.mapM_cons] at h
    simp only [Option.bind_eq_bind, Option.bind_eq_some, Option.pure_def,
      Option.some.injEq] at h
    obtain ⟨v, hfa, vs, hms, rfl⟩ := h
    rcases List.mem_cons.mp hy with rfl | hy'
    · exact ⟨a, List.mem_cons_self a as, hfa⟩
    · obtain ⟨x, hx, hfx⟩ := ih vs hms y hy'
      exact ⟨x, List.mem_cons_of_mem a hx, hfx⟩

theorem wf_foldl_sub (l : List Nat) :
    ∀ (t : Cosets), WF t → 0 < t.cosets.length →
      WF (l.foldl (fun t g => Cosets.set t 0 g 0) t) ∧
      (l.foldl (fun t g => Cosets.set t 0 g 0) t).cosets.length = t.cosets.length ∧
      (l.foldl (fun t g => Cosets.set t 0 g 0) t).n_gens = t.n_gens := by
  induction l with
  | nil => intro t h1 h2; exact ⟨h1, rfl, rfl⟩
  | cons g gs ih =>
    intro t h1 h2
    rw [List.foldl_cons]
    have hset := wf_set t 0 g 0 h1 h2 h2
    have hlen := set_cosets_length t 0 g 0
    obtain ⟨a, b, c⟩ := ih (t.set 0 g 0) hset (by rw [hlen]; exact h2)
    exact ⟨a, b.trans hlen, c⟩

theorem solve_wf (gens subgens : List Char) (rels : List (List Char)) (fuel : Nat)
    (t : Cosets) (h : solve gens subgens rels fuel = .ok t) : WF t := by
  rw [solve] at h
  rcases h1 : rels.mapM (List.mapM (symIndex gens)) with _ | relsI <;> rw [h1] at h
  · cases h
  rcases h2 : subgens.mapM (symIndex gens) with _ | subI <;> rw [h2] at h
  · cases h
  simp only at h
  have hstart := wf_start gens.length gens
  have h0len : (Cosets.start gens.length gens).cosets.length = 1 := rfl
  obtain ⟨hw1, hl1, hn1⟩ :=
    wf_foldl_sub subI (Cosets.start gens.length gens) hstart (by rw [h0len]; omega)
  have hrels_lt : ∀ rel ∈ relsI, ∀ g ∈ rel, g < gens.length := by
    intro rel hrel g hg
    obtain ⟨relC, hrelC, hmap⟩ := mapM_some_mem _ rels relsI h1 rel hrel
    obtain ⟨gc, hgc, hsym⟩ := mapM_some_mem _ relC rel hmap g hg
    exact symIndex_lt gens gc g hsym
  refine solveLoop_wf relsI fuel _ _ t hw1 ?_ ?_ h
  · intro r hrm
    obtain ⟨rel, hrel, rfl⟩ := List.mem_map.mp hrm
    refine ⟨?_, ?_, ?_, Nat.zero_le _, Nat.le_refl _⟩
    · intro g hg
      show g < (subI.foldl (fun t g => Cosets.set t 0 g 0)
        (Cosets.start gens.length gens)).n_gens
      rw [hn1]
      exact hrels_lt rel hrel g hg
    · show 0 < (subI.foldl (fun t g => Cosets.set t 0 g 0)
        (Cosets.start gens.length gens)).cosets.length
      rw [hl1, h0len]
      omega
    · show 0 < (subI.foldl (fun t g => Cosets.set t 0 g 0)
        (Cosets.start gens.length gens)).cosets.length
      rw [hl1, h0len]
      omega
  · intro rel hrel g hg
    show g < (subI.foldl (fun t g => Cosets.set t 0 g 0)
      (Cosets.start gens.length gens)).n_gens
    rw [hn1]
    exact hrels_lt rel hrel g hg

/-- C9: the bounds invariant.  The initial table is well formed (both
arrays one row per coset, one column per generator, every defined entry a
live coset index); well-formedness is preserved by every in-range `set`,
by `add_coset` (which also grows the coset count by exactly one), and by
`learn` on any well-formed row (whose row state stays within bounds, so
the `get`, `rget` and `set` calls `learn` makes index within the
arrays); and every table `solve` returns is well formed. -/
theorem claim_C9 :
    (∀ (n : Nat) (names : List Char), WF (Cosets.start n names)) ∧
    (∀ (t : Cosets) (c g tgt : Nat), WF t → c < t.cosets.length →
      tgt < t.cosets.length → WF (t.set c g tgt)) ∧
    (∀ t t' : Cosets, WF t → t.add_coset = some t' →
      WF t' ∧ t'.cosets.length = t.cosets.length + 1) ∧
    (∀ (t : Cosets) (r : Row), WF t → RowWF t.cosets.length t.n_gens r →
      WF (r.learn t).2.1 ∧ RowWF t.cosets.length t.n_gens (r.learn t).1) ∧
    (∀ (gens subgens : List Char) (rels : List (List Char)) (fuel : Nat) (t : Cosets),
      solve gens subgens rels fuel = .ok t → WF t) :=
  ⟨wf_start,
   fun t c g tgt hw hc ht => wf_set t c g tgt hw hc ht,
   fun t t' hw h => wf_add_coset t t' hw h,
   fun t r hw hr => ⟨(learn_wf t r hw hr).1, (learn_wf t r hw hr).2.1⟩,
   solve_wf⟩

/-- C9, witness: the table returned by a small complete run is well
formed. -/
theorem claim_C9_witness : WF ⟨['a'], 1, [[some 0]], [[some 0]]⟩ :=
  claim_C9.2.2.2.2 ['a'] ['a'] [['a', 'a']] 5 ⟨['a'], 1, [[some 0]], [[some 0]]⟩
    (by decide)

/-! Completeness of the breadth-first word reconstruction: with the fuel
used by `bfsWords`, every coset reachable from coset 0 receives a word.
The measure `queue length + number of unvisited cells` drops by exactly
one per loop iteration, so fuel `coset count + 1` always suffices. -/

theorem get_some_g_lt (t : Cosets) (hwf : WF t) (c g d : Nat)
    (h : t.get c g = some d) : g < t.n_gens := by
  obtain ⟨-, hw1, -, -, -⟩ := hwf
  have hc : c < t.cosets.length := get_some_lt t c g d h
  have hg : g < (t.cosets.getD c []).length := by
    apply lgetD_lt_of_ne
    rw [show (t.cosets.getD c []).getD g none = some d from h]
    simp
  rw [hw1 (t.cosets.getD c []) (lgetD_mem _ _ _ hc)] at hg
  exact hg

theorem countNone_replicate (n : Nat) :
    countNone (List.replicate n none) = n := by
  induction n with
  | zero => rfl
  | succ m ih =>
    show countNone (List.replicate m none) + 1 = m + 1
    rw [ih]

theorem countNone_set_some (ws : List (Option (List Nat))) (i : Nat) (w : List Nat)
    (hi : i < ws.length) (hnone : ws.getD i none = none) :
    countNone (ws.set i (some w)) + 1 = countNone ws := by
  induction ws generalizing i with
  | nil => simp at hi
  | cons x xs ih =>
    cases i with
    | zero =>
      have hx : x = none := hnone
      subst hx
      rfl
    | succ n =>
      have h1 : n < xs.length := by simpa using hi
      have h2 : xs.getD n none = none := hnone
      have hrec := ih n h1 h2
      cases x with
      | none =>
        show (countNone (xs.set n (some w)) + 1) + 1 = countNone xs + 1
        omega
      | some y =>
        show countNone (xs.set n (some w)) + 1 = countNone xs
        omega

theorem countNone_set_replicate (n : Nat) (w : List Nat) (h : 0 < n) :
    countNone ((List.replicate n (none : Option (List Nat))).set 0 (some w)) + 1 = n := by
  cases n with
  | zero => simp at h
  | succ m =>
    show countNone (List.replicate m none) + 1 = m + 1
    rw [countNone_replicate]

theorem bfsStep_spec (t : Cosets) (c : Nat) (wc : List Nat) (g : Nat)
    (st : List (Option (List Nat)) × List Nat)
    (hedge : ∀ g' d, t.get c g' = some d → d < t.cosets.length)
    (hlen : st.1.length = t.cosets.length) :
    (bfsStep t c wc st g).1.length = st.1.length ∧
    (∀ d, (st.1.getD d none).isSome = true →
      ((bfsStep t c wc st g).1.getD d none).isSome = true) ∧
    countNone (bfsStep t c wc st g).1 + (bfsStep t c wc st g).2.length =
      countNone st.1 + st.2.length ∧
    (∀ x ∈ st.2, x ∈ (bfsStep t c wc st g).2) ∧
    (∀ d, t.get c g = some d →
      ((bfsStep t c wc st g).1.getD d none).isSome = true) ∧
    (∀ d, ((bfsStep t c wc st g).1.getD d none).isSome = true →
      (st.1.getD d none).isSome = true ∨ d ∈ (bfsStep t c wc st g).2) ∧
    ((∀ x ∈ st.2, (st.1.getD x none).isSome = true) →
      ∀ x ∈ (bfsStep t c wc st g).2,
        ((bfsStep t c wc st g).1.getD x none).isSome = true) := by
  rw [bfsStep]
  rcases hg : t.get c g with _ | d0
  · refine ⟨rfl, fun d h => h, rfl, fun x hx => hx, ?_, fun d h => Or.inl h,
      fun h x hx => h x hx⟩
    intro d hd
    cases hd
  · dsimp only
    by_cases hdv : (st.1.getD d0 none).isNone = true
    · rw [if_pos hdv]
      have hd0lt : d0 < st.1.length := by
        rw [hlen]
        exact hedge g d0 hg
      have hd0none : st.1.getD d0 none = none := Option.isNone_iff_eq_none.mp hdv
      refine ⟨List.length_set _ _ _, ?_, ?_, ?_, ?_, ?_, ?_⟩
      · intro d h
        by_cases hd : d = d0
        · subst hd
          rw [hd0none] at h
          exact absurd h (by simp)
        · rw [lgetD_set_ne _ _ _ _ _ (fun he => hd he.symm)]
          exact h
      · show countNone (st.1.set d0 (some (wc ++ [g]))) + (st.2 ++ [d0]).length =
          countNone st.1 + st.2.length
        rw [List.length_append]
        have := countNone_set_some st.1 d0 (wc ++ [g]) hd0lt hd0none
        simp only [List.length_cons, List.length_nil]
        omega
      · intro x hx
        show x ∈ st.2 ++ [d0]
        exact List.mem_append.mpr (Or.inl hx)
      · intro d hd
        injection hd with hd'
        subst hd'
        rw [lgetD_set_eq _ _ _ _ hd0lt]
        rfl
      · intro d h
        by_cases hd : d = d0
        · subst hd
          right
          exact List.mem_append.mpr (Or.inr (List.mem_singleton.mpr rfl))
        · left
          rw [lgetD_set_ne _ _ _ _ _ (fun he => hd he.symm)] at h
          exact h
      · intro hall x hx
        rcases List.mem_append.mp hx with hx' | hx'
        · by_cases hd : x = d0
          · subst hd
            rw [lgetD_set_eq _ _ _ _ hd0lt]
            rfl
          · rw [lgetD_set_ne _ _ _ _ _ (fun he => hd he.symm)]
            exact hall x hx'
        · obtain rfl := List.mem_singleton.mp hx'
          rw [lgetD_set_eq _ _ _ _ hd0lt]
          rfl
    · rw [if_neg hdv]
      refine ⟨rfl, fun d h => h, rfl, fun x hx => hx, ?_, fun d h => Or.inl h,
        fun h x hx => h x hx⟩
      intro d hd
      injection hd with hd'
      subst hd'
      rcases hx : st.1.getD d0 none with _ | w
      · rw [hx] at hdv
        exact absurd rfl hdv
      · rfl

theorem bfsExpand_fold_spec (t : Cosets) (c : Nat) (wc : List Nat)
    (hedge : ∀ g' d, t.get c g' = some d → d < t.cosets.length) :
    ∀ (l : List Nat) (st : List (Option (List Nat)) × List Nat),
      st.1.length = t.cosets.length →
      (l.foldl (bfsStep t c wc) st).1.length = st.1.length ∧
      (∀ d, (st.1.getD d none).isSome = true →
        ((l.foldl (bfsStep t c wc) st).1.getD d none).isSome = true) ∧
      countNone (l.foldl (bfsStep t c wc) st).1 +
          (l.foldl (bfsStep t c wc) st).2.length =
        countNone st.1 + st.2.length ∧
      (∀ x ∈ st.2, x ∈ (l.foldl (bfsStep t c wc) st).2) ∧
      (∀ g ∈ l, ∀ d, t.get c g = some d →
        ((l.foldl (bfsStep t c wc) st).1.getD d none).isSome = true) ∧
      (∀ d, ((l.foldl (bfsStep t c wc) st).1.getD d none).isSome = true →
        (st.1.getD d none).isSome = true ∨ d ∈ (l.foldl (bfsStep t c wc) st).2) ∧
      ((∀ x ∈ st.2, (st.1.getD x none).isSome = true) →
        ∀ x ∈ (l.foldl (bfsStep t c wc) st).2,
          ((l.foldl (bfsStep t c wc) st).1.getD x none).isSome = true) := by
  intro l
  induction l with
  | nil =>
    intro st hlen
    exact ⟨rfl, fun d h => h, rfl, fun x hx => hx,
      fun g hg => absurd hg (List.not_mem_nil g), fun d h => Or.inl h,
      fun h x hx => h x hx⟩
  | cons g gs ih =>
    intro st hlen
    rw [List.foldl_cons]
    obtain ⟨s1, s2, s3, s4, s5, s6, s7⟩ := bfsStep_spec t c wc g st hedge hlen
    obtain ⟨i1, i2, i3, i4, i5, i6, i7⟩ := ih (bfsStep t c wc st g) (s1.trans hlen)
    refine ⟨i1.trans s1, fun d h => i2 d (s2 d h), by omega,
      fun x hx => i4 x (s4 x hx), ?_, ?_, fun hall => i7 (s7 hall)⟩
    · intro g' hg' d hd
      rcases List.mem_cons.mp hg' with rfl | hg''
      · exact i2 d (s5 d hd)
      · exact i5 g' hg'' d hd
    · intro d h
      rcases i6 d h with h' | h'
      · rcases s6 d h' with h'' | h''
        · exact Or.inl h''
        · exact Or.inr (i4 d h'')
      · exact Or.inr h'

theorem bfsExpand_spec (t : Cosets) (c : Nat) (wc : List Nat)
    (hedge : ∀ g' d, t.get c g' = some d → d < t.cosets.length)
    (ws : List (Option (List Nat))) (q : List Nat)
    (hlen : ws.length = t.cosets.length) :
    (bfsExpand t c wc (ws, q)).1.length = ws.length ∧
    (∀ d, (ws.getD d none).isSome = true →
      ((bfsExpand t c wc (ws, q)).1.getD d none).isSome = true) ∧
    countNone (bfsExpand t c wc (ws, q)).1 + (bfsExpand t c wc (ws, q)).2.length =
      countNone ws + q.length ∧
    (∀ x ∈ q, x ∈ (bfsExpand t c wc (ws, q)).2) ∧
    (∀ g d, g < t.n_gens → t.get c g = some d →
      ((bfsExpand t c wc (ws, q)).1.getD d none).isSome = true) ∧
    (∀ d, ((bfsExpand t c wc (ws, q)).1.getD d none).isSome = true →
      (ws.getD d none).isSome = true ∨ d ∈ (bfsExpand t c wc (ws, q)).2) ∧
    ((∀ x ∈ q, (ws.getD x none).isSome = true) →
      ∀ x ∈ (bfsExpand t c wc (ws, q)).2,
        ((bfsExpand t c wc (ws, q)).1.getD x none).isSome = true) := by
  obtain ⟨e1, e2, e3, e4, e5, e6, e7⟩ :=
    bfsExpand_fold_spec t c wc hedge (List.range t.n_gens) (ws, q) hlen
  exact ⟨e1, e2, e3, e4, fun g d hgn hg => e5 g (List.mem_range.mpr hgn) d hg, e6, e7⟩

theorem bfsLoop_complete (t : Cosets)
    (hedge : ∀ c g d, t.get c g = some d → d < t.cosets.length)
    (hgb : ∀ c g d, t.get c g = some d → g < t.n_gens) :
    ∀ (fuel : Nat) (q : List Nat) (ws : List (Option (List Nat))),
      ws.length = t.cosets.length →
      (∀ x ∈ q, (ws.getD x none).isSome = true) →
      (∀ c, (ws.getD c none).isSome = true →
        c ∈ q ∨ ∀ g d, t.get c g = some d → (ws.getD d none).isSome = true) →
      q.length + countNone ws ≤ fuel →
      (∀ c, (ws.getD c none).isSome = true →
        ((bfsLoop t fuel q ws).getD c none).isSome = true) ∧
      (∀ c, ((bfsLoop t fuel q ws).getD c none).isSome = true →
        ∀ g d, t.get c g = some d →
          ((bfsLoop t fuel q ws).getD d none).isSome = true) := by
  intro fuel
  induction fuel with
  | zero =>
    intro q ws hlen hqa hinv hfuel
    have hq : q = [] := by
      cases q with
      | nil => rfl
      | cons a as => simp at hfuel
    subst hq
    refine ⟨fun c h => h, ?_⟩
    intro c h g d hg
    rcases hinv c h with hin | hexp
    · exact absurd hin (List.not_mem_nil c)
    · exact hexp g d hg
  | succ f ih =>
    intro q ws hlen hqa hinv hfuel
    cases q with
    | nil =>
      refine ⟨fun c h => h, ?_⟩
      intro c h g d hg
      rcases hinv c h with hin | hexp
      · exact absurd hin (List.not_mem_nil c)
      · exact hexp g d hg
    | cons c q' =>
      have hcs := hqa c (List.mem_cons_self c q')
      rcases hwc : ws.getD c none with _ | wc
      · rw [hwc] at hcs
        exact absurd hcs (by simp)
      · rw [bfsLoop, hwc]
        dsimp only
        obtain ⟨e1, e2, e3, e4, e5, e6, e7⟩ :=
          bfsExpand_spec t c wc (hedge c) ws q' hlen
        have hqa' : ∀ x ∈ (bfsExpand t c wc (ws, q')).2,
            ((bfsExpand t c wc (ws, q')).1.getD x none).isSome = true :=
          e7 (fun x hx => hqa x (List.mem_cons_of_mem c hx))
        have hinv' : ∀ c0, ((bfsExpand t c wc (ws, q')).1.getD c0 none).isSome = true →
            c0 ∈ (bfsExpand t c wc (ws, q')).2 ∨
            ∀ g d, t.get c0 g = some d →
              ((bfsExpand t c wc (ws, q')).1.getD d none).isSome = true := by
          intro c0 h0
          rcases e6 c0 h0 with hws0 | hq0
          · rcases hinv c0 hws0 with hin | hexp
            · rcases List.mem_cons.mp hin with rfl | hin'
              · right
                intro g d hg
                exact e5 g d (hgb c0 g d hg) hg
              · left
                exact e4 c0 hin'
            · right
              intro g d hg
              exact e2 d (hexp g d hg)
          · left
            exact hq0
        have hfuel' : (bfsExpand t c wc (ws, q')).2.length +
            countNone (bfsExpand t c wc (ws, q')).1 ≤ f := by
          simp only [List.length_cons] at hfuel
          omega
        have hlen' : (bfsExpand t c wc (ws, q')).1.length = t.cosets.length :=
          e1.trans hlen
        obtain ⟨r1, r2⟩ := ih (bfsExpand t c wc (ws, q')).2
          (bfsExpand t c wc (ws, q')).1 hlen' hqa' hinv' hfuel'
        exact ⟨fun c0 h0 => r1 c0 (e2 c0 h0), r2⟩

/-- C8: for every well-formed coset table all of whose cosets are
reachable from coset 0 along forward edges (the situation of a
coincidence-free enumeration output, and the only situation in which
replayable representative words can exist at all, by
`replay_some_reach`), the breadth-first reconstruction records a
representative word for every coset, and replaying that word from coset
0 using only forward lookups lands exactly on that coset.  Modelled from
the spec: the per-coset `words` output consumed by `sample.py` is absent
from `src/toddcox.py`; `bfsWords` implements the reconstruction described
in spec section 4.3. -/
theorem claim_C8 (t : Cosets) (hwf : WF t) (h0 : 0 < t.cosets.length)
    (hreach : ∀ c < t.cosets.length, Reach t c) :
    ∀ c < t.cosets.length, ∃ w,
      (bfsWords t (t.cosets.length + 1)).getD c none = some w ∧
      replayWord t w = some c := by
  intro c hc
  have hedge : ∀ c' g d, t.get c' g = some d → d < t.cosets.length :=
    fun c' g d h => get_lt_of_wf t hwf c' g d h
  have hgb : ∀ c' g d, t.get c' g = some d → g < t.n_gens :=
    fun c' g d h => get_some_g_lt t hwf c' g d h
  have hlen0 : ((List.replicate t.cosets.length (none : Option (List Nat))).set 0
      (some [])).length = t.cosets.length := by
    rw [List.length_set, List.length_replicate]
  have hass0 : (((List.replicate t.cosets.length (none : Option (List Nat))).set 0
      (some [])).getD 0 none).isSome = true := by
    rw [lgetD_set_eq _ _ _ _ (by simpa using h0)]
    rfl
  have honly0 : ∀ c', (((List.replicate t.cosets.length (none : Option (List Nat))).set 0
      (some [])).getD c' none).isSome = true → c' = 0 := by
    intro c' h'
    by_cases hc' : c' = 0
    · exact hc'
    · rw [lgetD_set_ne _ _ _ _ _ (fun he => hc' he.symm), lgetD_replicate] at h'
      exact absurd h' (by simp)
  obtain ⟨hmono, hexp⟩ := bfsLoop_complete t hedge hgb (t.cosets.length + 1) [0]
    ((List.replicate t.cosets.length (none : Option (List Nat))).set 0 (some []))
    hlen0
    (by intro x hx
        obtain rfl := List.mem_singleton.mp hx
        exact hass0)
    (by intro c' h'
        left
        rw [honly0 c' h']
        exact List.mem_singleton.mpr rfl)
    (by have := countNone_set_replicate t.cosets.length [] h0
        simp only [List.length_cons, List.length_nil]
        omega)
  have hassigned : ∀ c', Reach t c' →
      ((bfsWords t (t.cosets.length + 1)).getD c' none).isSome = true := by
    intro c' hr
    induction hr with
    | base => exact hmono 0 hass0
    | step hr2 hget ih => exact hexp _ ih _ _ hget
  obtain ⟨w, hw⟩ := Option.isSome_iff_exists.mp (hassigned c (hreach c hc))
  exact ⟨w, hw, bfsLoop_inv t (t.cosets.length + 1) [0] _ (bfsWords_init_inv t) c w hw⟩

/-- C8, witness: on the completed two-coset table of the order-2 group
the reconstruction assigns coset 1 the word `[0]`, and replaying `[0]`
from coset 0 lands on coset 1. -/
theorem claim_C8_witness :
    (bfsWords ⟨['a'], 1, [[some 1], [some 0]], [[some 1], [some 0]]⟩
        ((⟨['a'], 1, [[some 1], [some 0]], [[some 1], [some 0]]⟩ : Cosets).cosets.length + 1)).getD
      1 none = some [0] ∧
    replayWord ⟨['a'], 1, [[some 1], [some 0]], [[some 1], [some 0]]⟩ [0] = some 1 := by
  obtain ⟨w, hw1, hw2⟩ :=
    claim_C8 ⟨['a'], 1, [[some 1], [some 0]], [[some 1], [some 0]]⟩
      ⟨rfl, by decide, by decide, by decide, by decide⟩ (by decide)
      (fun c hc => by
        match c, hc with
        | 0, _ => exact Reach.base
        | 1, _ =>
          exact @Reach.step ⟨['a'], 1, [[some 1], [some 0]], [[some 1], [some 0]]⟩
            0 0 1 Reach.base (by decide)
        | n + 2, h => exact absurd (show n + 2 < 2 from h) (by omega))
      1 (by decide)
  have hb : (bfsWords ⟨['a'], 1, [[some 1], [some 0]], [[some 1], [some 0]]⟩
      ((⟨['a'], 1, [[some 1], [some 0]], [[some 1], [some 0]]⟩ : Cosets).cosets.length + 1)).getD
        1 none = some [0] := by decide
  rw [hb] at hw1
  cases hw1
  exact ⟨hb, hw2⟩

/-! Reachability from the base coset in coincidence-free runs. -/

theorem reach_mono (t t' : Cosets)
    (h : ∀ c g d, t.get c g = some d → t'.get c g = some d) :
    ∀ c, Reach t c → Reach t' c := by
  intro c hr
  induction hr with
  | base => exact Reach.base
  | step hr hget ih => exact Reach.step ih (h _ _ _ hget)

theorem set_preserves_get (t : Cosets) (c g tgt : Nat)
    (hov : t.get c g = none ∨ t.get c g = some tgt) :
    ∀ c' g' d, t.get c' g' = some d → (t.set c g tgt).get c' g' = some d := by
  intro c' g' d h
  by_cases hcg : c' = c ∧ g' = g
  · obtain ⟨rfl, rfl⟩ := hcg
    rcases hov with h0 | h0
    · rw [h0] at h
      cases h
    · rw [h0] at h
      cases h
      have hc' : c' < t.cosets.length := get_some_lt t c' g' tgt h0
      have hg' : g' < (t.cosets.getD c' []).length := by
        apply lgetD_lt_of_ne
        rw [show (t.cosets.getD c' []).getD g' none = some tgt from h0]
        simp
      rw [get_set_eq t c' g' tgt hc' hg']
  · rw [get_set_ne t c g tgt c' g' (by tauto)]
    exact h

theorem add_coset_reach (t t' : Cosets) (h : t.add_coset = some t')
    (hall : ∀ c < t.cosets.length, Reach t c) :
    ∀ c < t'.cosets.length, Reach t' c := by
  rw [Cosets.add_coset] at h
  rcases hf : findNone t.cosets with _ | ⟨i, j⟩ <;> rw [hf] at h
  · cases h
  · simp only [Option.some.injEq] at h
    subst h
    obtain ⟨hi, hj, hnone⟩ := findNone_spec t.cosets i j hf
    have hlen' : (t.add_row.set i j t.cosets.length).cosets.length =
        t.cosets.length + 1 := by
      rw [set_cosets_length, add_row_cosets_length]
    have hpres : ∀ c g d, t.get c g = some d →
        (t.add_row.set i j t.cosets.length).get c g = some d := by
      intro c g d hget
      have hc : c < t.cosets.length := get_some_lt t c g d hget
      have har : t.add_row.get c g = some d := by
        show ((t.cosets ++ [List.replicate t.n_gens none]).getD c []).getD g none = some d
        rw [lgetD_append_lt _ _ _ _ hc]
        exact hget
      by_cases hcg : c = i ∧ g = j
      · obtain ⟨rfl, rfl⟩ := hcg
        rw [show t.get c g = none from hnone] at hget
        cases hget
      · rw [get_set_ne _ _ _ _ _ _ (by tauto)]
        exact har
    have hmono := reach_mono t _ hpres
    have hnew : (t.add_row.set i j t.cosets.length).get i j = some t.cosets.length := by
      apply get_set_eq
      · rw [add_row_cosets_length]
        omega
      · show j < ((t.cosets ++ [List.replicate t.n_gens none]).getD i []).length
        rw [lgetD_append_lt _ _ _ _ hi]
        exact hj
    intro c hc
    rw [hlen'] at hc
    rcases Nat.lt_or_ge c t.cosets.length with hlt | hge
    · exact hmono c (hall c hlt)
    · have hceq : c = t.cosets.length := by omega
      subst hceq
      exact Reach.step (hmono i (hall i hi)) hnew

/-- C10: in runs where no `set` call overwrites an already-defined
forward entry with a different value, every coset stays reachable from
coset 0 along defined forward edges: coset 0 is reachable in the initial
table, a non-overwriting `set` preserves every forward edge and hence
all reachability, and `add_coset` writes a forward edge from an existing
coset to the newly created one at the moment it is created, so full
reachability of the table is preserved as it grows. -/
theorem claim_C10 :
    (∀ (n : Nat) (names : List Char), Reach (Cosets.start n names) 0) ∧
    (∀ (t : Cosets) (c g tgt : Nat),
      (t.get c g = none ∨ t.get c g = some tgt) →
      ∀ c', Reach t c' → Reach (t.set c g tgt) c') ∧
    (∀ t t' : Cosets, t.add_coset = some t' →
      (∀ c < t.cosets.length, Reach t c) → ∀ c < t'.cosets.length, Reach t' c) :=
  ⟨fun _ _ => Reach.base,
   fun t c g tgt hov c' hr => reach_mono t _ (set_preserves_get t c g tgt hov) c' hr,
   add_coset_reach⟩

/-- C10, witness: growing the one-coset table by one coset leaves both
cosets reachable from coset 0; in particular the new coset 1 is
reachable. -/
theorem claim_C10_witness :
    Reach ⟨['a'], 1, [[some 1], [none]], [[none], [some 0]]⟩ 1 :=
  claim_C10.2.2 (Cosets.start 1 ['a'])
    ⟨['a'], 1, [[some 1], [none]], [[none], [some 0]]⟩
    (by decide)
    (fun c hc => by
      have h0 : c = 0 := Nat.lt_one_iff.mp hc
      subst h0
      exact Reach.base)
    1 (by decide)

end ToddCox
